import Mathlib

/-!
Verification of the sylt-lang core (compiler + stack VM) against its
natural-language specification.

The Rust sources `src/lib.rs`, `src/vm.rs` and `src/compiler.rs` are shallowly
embedded below.  Conventions of the embedding:

* Rust `i64` is modelled as `Int` with wrapping normalisation `wrap64`
  (release-mode two's-complement semantics); `usize` casts of `i64` are
  `% 2^64` as in Rust `as` casts.
* Rust `f64` is modelled by `FloatV`: an exact rational for the finite values
  plus the two infinities and a single NaN.  This abstraction is exact for
  every comparison (`<`, `==`) the claims depend on; rounding of arithmetic
  results is not modelled because no claim depends on it.
* Rust `String` is modelled as `List Char`; Rust compares strings by UTF-8
  bytes, which coincides with lexicographic comparison of code points.
* `Rc<RefCell<Block>>` sharing is modelled by a block arena inside the VM
  state (`VMState.blocks`) addressed through `BlockRef`; `Rc<RefCell<UpValue>>`
  cells by `VMState.cells` addressed by index, with the VM's open-up-value map
  `VMState.upvalues` mapping stack slots to cell indices, exactly mirroring
  `VM.upvalues : HashMap<usize, Rc<RefCell<UpValue>>>`.
* A Rust panic (slice index out of bounds, `unwrap` on `None`,
  `unreachable!()`, arithmetic underflow of `usize`, division by zero) is the
  `crash` outcome: the process aborts instead of returning.
* The divergent operator functions of `mod op` (they can recurse forever on
  `Union`/`Unknown` values, see `op::add`) take a fuel argument and return
  `Option Value`; `none` means the call does not return normally.
* Errors carry only their `ErrorKind` payload; the `file`/`line`/`message`
  decorations of `Error` are elided since no claim mentions them.
-/

namespace Sylt

/-- Two's-complement wrap of an unbounded integer into the `i64` range,
the release-mode semantics of Rust `i64` arithmetic. -/
def wrap64 (x : Int) : Int := (x + 2 ^ 63) % 2 ^ 64 - 2 ^ 63

/-- Rust `i64 as usize` cast (wraps modulo `2^64`). -/
def intToUsize (x : Int) : Nat := (x % 2 ^ 64).toNat

/-- Model of `f64`: exact rationals for finite values, plus infinities and
NaN.  `-0.0` and `0.0` compare equal in `f64`, so collapsing them into the
single rational `0` is faithful for every comparison. -/
inductive FloatV where
  | finite : ℚ → FloatV
  | posInf : FloatV
  | negInf : FloatV
  | nan : FloatV
deriving DecidableEq, Repr

/-- IEEE `==` on the float model (`nan` is not equal to anything). -/
def fltEq : FloatV → FloatV → Bool
  | .finite a, .finite b => a = b
  | .posInf, .posInf => true
  | .negInf, .negInf => true
  | _, _ => false

/-- IEEE `<` on the float model (`nan` is incomparable with everything). -/
def fltLt : FloatV → FloatV → Bool
  | .finite a, .finite b => a < b
  | .finite _, .posInf => true
  | .negInf, .finite _ => true
  | .negInf, .posInf => true
  | _, _ => false

/-- IEEE negation. -/
def fltNeg : FloatV → FloatV
  | .finite a => .finite (-a)
  | .posInf => .negInf
  | .negInf => .posInf
  | .nan => .nan

/-- IEEE addition on the model (finite sums are exact; no claim depends on
rounding). -/
def fltAdd : FloatV → FloatV → FloatV
  | .nan, _ => .nan
  | _, .nan => .nan
  | .posInf, .negInf => .nan
  | .negInf, .posInf => .nan
  | .posInf, _ => .posInf
  | _, .posInf => .posInf
  | .negInf, _ => .negInf
  | _, .negInf => .negInf
  | .finite a, .finite b => .finite (a + b)

/-- IEEE multiplication on the model. -/
def fltMul : FloatV → FloatV → FloatV
  | .nan, _ => .nan
  | _, .nan => .nan
  | .posInf, .posInf => .posInf
  | .posInf, .negInf => .negInf
  | .negInf, .posInf => .negInf
  | .negInf, .negInf => .posInf
  | .posInf, .finite b => if b = 0 then .nan else if 0 < b then .posInf else .negInf
  | .finite a, .posInf => if a = 0 then .nan else if 0 < a then .posInf else .negInf
  | .negInf, .finite b => if b = 0 then .nan else if 0 < b then .negInf else .posInf
  | .finite a, .negInf => if a = 0 then .nan else if 0 < a then .negInf else .posInf
  | .finite a, .finite b => .finite (a * b)

/-- IEEE division on the model. -/
def fltDiv : FloatV → FloatV → FloatV
  | .nan, _ => .nan
  | _, .nan => .nan
  | .posInf, .posInf => .nan
  | .posInf, .negInf => .nan
  | .negInf, .posInf => .nan
  | .negInf, .negInf => .nan
  | .posInf, .finite b => if 0 ≤ b then .posInf else .negInf
  | .negInf, .finite b => if 0 ≤ b then .negInf else .posInf
  | .finite _, .posInf => .finite 0
  | .finite _, .negInf => .finite 0
  | .finite a, .finite b =>
      if b = 0 then (if a = 0 then .nan else if 0 < a then .posInf else .negInf)
      else .finite (a / b)

/-- Rust byte-wise `<` on strings, modelled as lexicographic comparison of
code points over `List Char` (equivalent on UTF-8). -/
def strLt : List Char → List Char → Bool
  | [], [] => false
  | [], _ :: _ => true
  | _ :: _, [] => false
  | a :: x, b :: y =>
      if a.toNat < b.toNat then true
      else if b.toNat < a.toNat then false
      else strLt x y

/-- The `Type` enum of `lib.rs`.  `Rc<Blob>` payloads are modelled by the
blob id, since `Blob`'s `PartialEq` compares only `id`. -/
inductive Ty where
  | void : Ty
  | unknown : Ty
  | int : Ty
  | float : Ty
  | bool : Ty
  | string : Ty
  | tuple : List Ty → Ty
  | union : List Ty → Ty
  | list : Ty → Ty
  | function : List Ty → Ty → Ty
  | blob : Nat → Ty
  | instanceT : Nat → Ty
deriving Repr

mutual
/-- `impl PartialEq for Type` of `lib.rs` (`Type::eq`), arm for arm and in
source order.  Note that the `Tuple` arm zips without a length check and the
`Union` arms ask for membership of the other side. -/
def tyEq : Ty → Ty → Bool
  | .void, .void => true
  | .instanceT a, .instanceT b => a = b
  | .blob a, .blob b => a = b
  | .int, .int => true
  | .float, .float => true
  | .bool, .bool => true
  | .string, .string => true
  | .tuple a, .tuple b => tyZipAll a b
  | .union a, b => tyAnyEq a b
  | b, .union a => tyAnyEq a b
  | .list a, .list b => tyEq a b
  | .function aArgs aRet, .function bArgs bRet => tyVecEq aArgs bArgs && tyEq aRet bRet
  | _, _ => false
termination_by a b => sizeOf a + sizeOf b
decreasing_by all_goals (simp_wf; try omega)

/-- `a.iter().zip(b.iter()).all(|(a, b)| a == b)` — truncating zip. -/
def tyZipAll : List Ty → List Ty → Bool
  | a :: x, b :: y => tyEq a b && tyZipAll x y
  | _, _ => true
termination_by a b => sizeOf a + sizeOf b
decreasing_by all_goals (simp_wf; try omega)

/-- `a.iter().any(|x| x == b)` for the `Union` arms of `Type::eq`. -/
def tyAnyEq : List Ty → Ty → Bool
  | [], _ => false
  | x :: xs, b => tyEq x b || tyAnyEq xs b
termination_by a b => sizeOf a + sizeOf b
decreasing_by all_goals (simp_wf; try omega)

/-- `Vec<Type>` equality (length plus pointwise), used by the `Function` arm. -/
def tyVecEq : List Ty → List Ty → Bool
  | [], [] => true
  | a :: x, b :: y => tyEq a b && tyVecEq x y
  | _, _ => false
termination_by a b => sizeOf a + sizeOf b
decreasing_by all_goals (simp_wf; try omega)
end

/-- `HashSet::contains` on a modelled set of types: some stored member is
`Type::eq`-equal to the probe. -/
def tyContains (s : List Ty) (x : Ty) : Bool := s.any fun y => tyEq y x

/-- `Type::fits` of `lib.rs`, arm for arm and in source order. -/
def fits : Ty → Ty → Bool
  | _, .unknown => true
  | .list a, .list b => fits a b
  | .union a, .union b => a.all fun x => tyContains b x
  | _, .union _ => false
  | a, b => tyEq a b

/-- Reference to an `Rc<RefCell<Block>>`: either a block of the program's
block arena, or an orphan block made by `Block::stubbed_block` (empty op
stream, carrying only a function type). -/
inductive BlockRef where
  | id : Nat → BlockRef
  | stub : Ty → BlockRef
deriving Repr

/-- The `Value` enum of `lib.rs` as used by `vm.rs` (which carries blob ids in
`Value::Blob`/`Value::BlobInstance`).  The `Rc<RefCell<Vec<Value>>>` of an
instance is inlined as a list (no claim exercises instance-field aliasing);
a `Function`'s captured up-values are indices into the VM's up-value cell
arena, and its `Rc<RefCell<Block>>` is a `BlockRef`. -/
inductive Value where
  | ty : Ty → Value
  | blob : Nat → Value
  | blobInstance : Nat → List Value → Value
  | tuple : List Value → Value
  | list : List Value → Value
  | union : List Value → Value
  | float : FloatV → Value
  | int : Int → Value
  | bool : Bool → Value
  | string : List Char → Value
  | function : List Nat → BlockRef → Value
  | externFunction : Nat → Value
  | unknown : Value
  | nil : Value
deriving Repr

/-- `Value::is_nil`. -/
def Value.isNil : Value → Bool
  | .nil => true
  | _ => false

mutual
/-- `impl PartialEq for Value` of `lib.rs`, arm for arm in source order. -/
def valueEq : Value → Value → Bool
  | .float a, .float b => fltEq a b
  | .int a, .int b => a = b
  | .bool a, .bool b => a = b
  | .string a, .string b => a = b
  | .list a, .list b => valueVecEq a b
  | .tuple a, .tuple b => a.length = b.length && valueZipAll a b
  | .union a, b => valueAnyEq a b
  | b, .union a => valueAnyEq a b
  | .nil, .nil => true
  | _, _ => false
termination_by a b => sizeOf a + sizeOf b
decreasing_by all_goals (simp_wf; try omega)

/-- `Vec<Value>` equality: length plus pointwise (`Rc<RefCell<Vec>>` compares
its contents). -/
def valueVecEq : List Value → List Value → Bool
  | [], [] => true
  | a :: x, b :: y => valueEq a b && valueVecEq x y
  | _, _ => false
termination_by a b => sizeOf a + sizeOf b
decreasing_by all_goals (simp_wf; try omega)

/-- The explicit `zip`-`all` of the `Tuple` arm of `Value::eq`. -/
def valueZipAll : List Value → List Value → Bool
  | a :: x, b :: y => valueEq a b && valueZipAll x y
  | _, _ => true
termination_by a b => sizeOf a + sizeOf b
decreasing_by all_goals (simp_wf; try omega)

/-- `a.iter().any(|x| x == b)` of the `Union` arms of `Value::eq`. -/
def valueAnyEq : List Value → Value → Bool
  | [], _ => false
  | x :: xs, b => valueEq x b || valueAnyEq xs b
termination_by a b => sizeOf a + sizeOf b
decreasing_by all_goals (simp_wf; try omega)
end

mutual
/-- `op::neg` of `lib.rs`. -/
def opNeg : Value → Value
  | .float a => .float (fltNeg a)
  | .int a => .int (wrap64 (-a))
  | .tuple a => .tuple (opNegList a)
  | .union v => opNegUnion v
  | .unknown => .unknown
  | _ => .nil

/-- `tuple_un_op` specialised to `op::neg`. -/
def opNegList : List Value → List Value
  | [] => []
  | x :: xs => opNeg x :: opNegList xs

/-- `union_un_op` specialised to `op::neg`: first non-nil member image. -/
def opNegUnion : List Value → Value
  | [] => .nil
  | x :: xs => let r := opNeg x; if r.isNil then opNegUnion xs else r
end

mutual
/-- `op::not` of `lib.rs`.  Note `not(Unknown) = Value::from(Type::Bool)`,
i.e. `Bool(true)`. -/
def opNot : Value → Value
  | .bool a => .bool (!a)
  | .tuple a => .tuple (opNotList a)
  | .union v => opNotUnion v
  | .unknown => .bool true
  | _ => .nil

/-- `tuple_un_op` specialised to `op::not`. -/
def opNotList : List Value → List Value
  | [] => []
  | x :: xs => opNot x :: opNotList xs

/-- `union_un_op` specialised to `op::not`. -/
def opNotUnion : List Value → Value
  | [] => .nil
  | x :: xs => let r := opNot x; if r.isNil then opNotUnion xs else r
end

/-- `tuple_bin_op`: zip the two member lists with the operator (the Rust
`collect` builds the result even if members are `Nil`).  `none` propagates
non-returning member computations. -/
def tupleBinOpF (f : Value → Value → Option Value) : List Value → List Value → Option (List Value)
  | [], _ => some []
  | _, [] => some []
  | x :: xs, y :: ys => do
      let r ← f x y
      let rs ← tupleBinOpF f xs ys
      some (r :: rs)

/-- `union_bin_op`: the first member whose image under the operator is not
`Nil`, else `Nil`. -/
def unionBinOpF (f : Value → Value → Option Value) : List Value → Value → Option Value
  | [], _ => some .nil
  | x :: xs, b =>
      match f x b with
      | none => none
      | some r => if r.isNil then unionBinOpF f xs b else some r

/-- The element loop of the `Tuple`/`List` arms of `op::eq`: all-true is
true, the first false/nil short-circuits, anything else is the
`unreachable!` panic. -/
def eqSeqF (f : Value → Value → Option Value) : List Value → List Value → Option Value
  | [], _ => some (.bool true)
  | _, [] => some (.bool true)
  | x :: xs, y :: ys =>
      match f x y with
      | none => none
      | some (.bool true) => eqSeqF f xs ys
      | some (.bool false) => some (.bool false)
      | some .nil => some .nil
      | some _ => none

/-- The `find_map` of the `Tuple` arm of `op::less`: skip `Bool(true)`
members, return the first other result, default `Bool(true)`. -/
def lessSeqF (f : Value → Value → Option Value) : List Value → List Value → Option Value
  | [], _ => some (.bool true)
  | _, [] => some (.bool true)
  | x :: xs, y :: ys =>
      match f x y with
      | none => none
      | some (.bool true) => lessSeqF f xs ys
      | some r => some r

/-- `op::add` of `lib.rs`, arm for arm in source order.  The function can
recurse forever (e.g. on `Union({Unknown})` operands), so it takes fuel;
`none` means the Rust call does not return.  Integer overflow wraps
(release semantics). -/
def addF : Nat → Value → Value → Option Value
  | 0, _, _ => none
  | n + 1, a, b =>
      match a, b with
      | .float x, .float y => some (.float (fltAdd x y))
      | .int x, .int y => some (.int (wrap64 (x + y)))
      | .string x, .string y => some (.string (x ++ y))
      | .tuple x, .tuple y =>
          if x.length = y.length then (tupleBinOpF (addF n) x y).map Value.tuple
          else some .nil
      | .unknown, .unknown => some .unknown
      | .unknown, c => addF n c c
      | c, .unknown => addF n c c
      | .union s, c => unionBinOpF (addF n) s c
      | c, .union s => unionBinOpF (addF n) s c
      | _, _ => some .nil

/-- `op::sub`: `add(a, &neg(b))`. -/
def subF (n : Nat) (a b : Value) : Option Value := addF n a (opNeg b)

/-- `op::mul` of `lib.rs`. -/
def mulF : Nat → Value → Value → Option Value
  | 0, _, _ => none
  | n + 1, a, b =>
      match a, b with
      | .float x, .float y => some (.float (fltMul x y))
      | .int x, .int y => some (.int (wrap64 (x * y)))
      | .tuple x, .tuple y =>
          if x.length = y.length then (tupleBinOpF (mulF n) x y).map Value.tuple
          else some .nil
      | .unknown, .unknown => some .unknown
      | .unknown, c => mulF n c c
      | c, .unknown => mulF n c c
      | .union s, c => unionBinOpF (mulF n) s c
      | c, .union s => unionBinOpF (mulF n) s c
      | _, _ => some .nil

/-- `op::div` of `lib.rs`.  `i64` division truncates toward zero and panics
on a zero divisor (hence `none`). -/
def divF : Nat → Value → Value → Option Value
  | 0, _, _ => none
  | n + 1, a, b =>
      match a, b with
      | .float x, .float y => some (.float (fltDiv x y))
      | .int x, .int y => if y = 0 then none else some (.int (wrap64 (Int.tdiv x y)))
      | .tuple x, .tuple y =>
          if x.length = y.length then (tupleBinOpF (divF n) x y).map Value.tuple
          else some .nil
      | .unknown, .unknown => some .unknown
      | .unknown, c => divF n c c
      | c, .unknown => divF n c c
      | .union s, c => unionBinOpF (divF n) s c
      | c, .union s => unionBinOpF (divF n) s c
      | _, _ => some .nil

/-- `op::eq` of `lib.rs`, arm for arm in source order. -/
def eqF : Nat → Value → Value → Option Value
  | 0, _, _ => none
  | n + 1, a, b =>
      match a, b with
      | .float x, .float y => some (.bool (fltEq x y))
      | .int x, .int y => some (.bool (x = y))
      | .string x, .string y => some (.bool (x = y))
      | .bool x, .bool y => some (.bool (x = y))
      | .tuple x, .tuple y =>
          if x.length = y.length then eqSeqF (eqF n) x y else some .nil
      | .unknown, .unknown => some .unknown
      | .unknown, c => eqF n c c
      | c, .unknown => eqF n c c
      | .union s, c => unionBinOpF (eqF n) s c
      | c, .union s => unionBinOpF (eqF n) s c
      | .nil, .nil => some (.bool true)
      | .list x, .list y =>
          if x.length = y.length then eqSeqF (eqF n) x y else some (.bool false)
      | _, _ => some .nil

/-- `op::less` of `lib.rs`, arm for arm in source order.  The `Tuple` arm is
the `find_map` over member comparisons. -/
def lessF : Nat → Value → Value → Option Value
  | 0, _, _ => none
  | n + 1, a, b =>
      match a, b with
      | .float x, .float y => some (.bool (fltLt x y))
      | .int x, .int y => some (.bool (x < y))
      | .string x, .string y => some (.bool (strLt x y))
      | .bool x, .bool y => some (.bool (!x && y))
      | .tuple x, .tuple y =>
          if x.length = y.length then lessSeqF (lessF n) x y else some .nil
      | .unknown, .unknown => some .unknown
      | .unknown, c => lessF n c c
      | c, .unknown => lessF n c c
      | .union s, c => unionBinOpF (lessF n) s c
      | c, .union s => unionBinOpF (lessF n) s c
      | _, _ => some .nil

/-- `op::greater`: `less(b, a)`. -/
def greaterF (n : Nat) (a b : Value) : Option Value := lessF n b a

/-- `op::and` of `lib.rs`. -/
def andF : Nat → Value → Value → Option Value
  | 0, _, _ => none
  | n + 1, a, b =>
      match a, b with
      | .bool x, .bool y => some (.bool (x && y))
      | .tuple x, .tuple y =>
          if x.length = y.length then (tupleBinOpF (andF n) x y).map Value.tuple
          else some .nil
      | .unknown, .unknown => some .unknown
      | .unknown, c => andF n c c
      | c, .unknown => andF n c c
      | .union s, c => unionBinOpF (andF n) s c
      | c, .union s => unionBinOpF (andF n) s c
      | _, _ => some .nil

/-- `op::or` of `lib.rs`. -/
def orF : Nat → Value → Value → Option Value
  | 0, _, _ => none
  | n + 1, a, b =>
      match a, b with
      | .bool x, .bool y => some (.bool (x || y))
      | .tuple x, .tuple y =>
          if x.length = y.length then (tupleBinOpF (orF n) x y).map Value.tuple
          else some .nil
      | .unknown, .unknown => some .unknown
      | .unknown, c => orF n c c
      | c, .unknown => orF n c c
      | .union s, c => unionBinOpF (orF n) s c
      | c, .union s => unionBinOpF (orF n) s c
      | _, _ => some .nil

/-! ## The bytecode and the VM state -/

/-- The decoded instruction set of `vm.rs` (one constructor per arm of
`VM::eval_op`).  The byte-level encoding (`op()` plus big-endian `usize()`
operands) is abstracted to decoded instructions; the instruction pointer
counts instructions and jump targets are instruction indices.  No claim
depends on byte offsets. -/
inductive UOp where
  | nop : UOp
  | illegal : UOp
  | unreachableOp : UOp
  | pop : UOp
  | popUpvalue : UOp
  | copy : UOp
  | yield : UOp
  | constant : Nat → UOp
  | tupleOp : Nat → UOp
  | index : UOp
  | get : Nat → UOp
  | set : Nat → UOp
  | neg : UOp
  | add : UOp
  | sub : UOp
  | mul : UOp
  | div : UOp
  | equal : UOp
  | less : UOp
  | greater : UOp
  | andOp : UOp
  | orOp : UOp
  | notOp : UOp
  | jmp : Nat → UOp
  | jmpFalse : Nat → UOp
  | jmpNPop : Nat → Nat → UOp
  | assert : UOp
  | readUpvalue : Nat → UOp
  | assignUpvalue : Nat → UOp
  | readLocal : Nat → UOp
  | assignLocal : Nat → UOp
  | defineOp : Nat → UOp
  | call : Nat → UOp
  | print : UOp
  | ret : UOp
deriving Repr

/-- `ErrorKind` of `error.rs` as used by `vm.rs` (payload-carrying kinds
kept; `file`/`line`/`message` of `Error` elided). -/
inductive ErrKind where
  | assertFailed : ErrKind
  | unreachableErr : ErrKind
  | indexOutOfBounds : Value → Nat → Nat → ErrKind
  | runtimeTypeError : UOp → List Value → ErrKind
  | typeError : UOp → List Ty → ErrKind
  | invalidProgram : ErrKind
  | typeMismatch : Ty → Ty → ErrKind
  | externTypeMismatch : List Char → List Ty → ErrKind
deriving Repr

/-- One `UpValue` cell of `lib.rs`: open while `slot ≠ 0`, closed (owning
`value`) once `slot = 0`. -/
structure UpVal where
  slot : Nat
  value : Value
deriving Repr

/-- `UpValue::close`. -/
def UpVal.close (v : Value) (_u : UpVal) : UpVal := ⟨0, v⟩

/-- A `Blob` definition (`lib.rs`): field name to `(slot, type)`. -/
structure BlobV where
  id : Nat
  name : List Char
  fields : List (List Char × Nat × Ty)
deriving Repr

/-- `HashMap::get` on the modelled field map. -/
def fieldsGet (fs : List (List Char × Nat × Ty)) (key : List Char) : Option (Nat × Ty) :=
  match fs with
  | [] => none
  | (k, v) :: rest => if k = key then some v else fieldsGet rest key

/-- A `Block`: its function type, up-value descriptors
`(outer_slot, is_upvalue_in_outer, type)` and decoded op stream.  The name,
file and line map are elided (only error decorations read them). -/
structure BlockV where
  ty : Ty
  upvalues : List (Nat × Bool × Ty)
  ops : List UOp
deriving Repr

/-- Follow a `BlockRef`: arena lookup, or the empty stubbed block. -/
def blockOfRef (blocks : List BlockV) : BlockRef → Option BlockV
  | .id n => blocks.get? n
  | .stub t => some { ty := t, upvalues := [], ops := [] }

/-- A call frame of `vm.rs`. -/
structure FrameV where
  stackOffset : Nat
  block : BlockRef
  ip : Nat
deriving Repr

/-- The mutable VM state (`struct VM` of `vm.rs` minus the print flags and
the extern table, which is passed separately so the state stays first-order).
`blocks` is the arena standing for the `Rc<RefCell<Block>>` heap. -/
structure VMState where
  upvalues : List (Nat × Nat)
  cells : List UpVal
  stack : List Value
  frames : List FrameV
  blocks : List BlockV
  blobs : List BlobV
  constants : List Value
  strings : List (List Char)
deriving Repr

/-- A `RustFunction`: `fn(&[Value], bool) -> Result<Value, ErrorKind>`. -/
def ExternFn : Type := List Value → Bool → Except ErrKind Value

/-- The compiled program (`Prog`), extern table elided. -/
structure ProgV where
  blocks : List BlockV
  blobs : List BlobV
  constants : List Value
  strings : List (List Char)

/-- `HashMap<usize, _>::get` on the slot-to-cell map. -/
def uvLookup (slot : Nat) : List (Nat × Nat) → Option Nat
  | [] => none
  | (k, v) :: rest => if k = slot then some v else uvLookup slot rest

/-- `HashMap::remove` on the slot-to-cell map. -/
def uvErase (slot : Nat) : List (Nat × Nat) → List (Nat × Nat)
  | [] => []
  | (k, v) :: rest => if k = slot then rest else (k, v) :: uvErase slot rest

/-- `OpResult` (the `Continue` variant is internal to the dispatch loop). -/
inductive OpRes where
  | continueR : OpRes
  | doneR : OpRes
  | yieldR : OpRes
deriving Repr

/-- Outcome of one `eval_op` step: normal result with the mutated state, an
`Err(error)` with the state as mutated up to the `error!`, or a Rust panic
(process abort). -/
inductive StepOut where
  | ok : OpRes → VMState → StepOut
  | err : ErrKind → VMState → StepOut
  | crash : StepOut

/-- `Vec::pop` from the top of the stack (top is the last element). -/
def popTop : List Value → Option (List Value × Value)
  | [] => none
  | [v] => some ([], v)
  | a :: b :: l =>
      match popTop (b :: l) with
      | some (s, v) => some (a :: s, v)
      | none => none

/-- Push onto the value stack. -/
def pushV (st : VMState) (v : Value) : VMState := { st with stack := st.stack ++ [v] }

/-- `VM::error`: reads `frames.last().unwrap()` for decoration, so an empty
frame stack panics. -/
def mkErr (st : VMState) (k : ErrKind) : StepOut :=
  if st.frames.isEmpty then .crash else .err k st

/-- Replace the `ip` of the current (last) frame; panics without frames. -/
def modifyIp (st : VMState) (f : Nat → Nat) : Option VMState :=
  match st.frames.getLast? with
  | none => none
  | some fr => some { st with frames := st.frames.dropLast ++ [{ fr with ip := f fr.ip }] }

/-- `VM::find_upvalue`: `entry(slot).or_insert(UpValue::new(slot))`, returning
the cell index (appending a fresh open cell when absent). -/
def findUpvalueVM (slot : Nat) (st : VMState) : Nat × VMState :=
  match uvLookup slot st.upvalues with
  | some cid => (cid, st)
  | none =>
      (st.cells.length,
       { st with cells := st.cells ++ [⟨slot, .nil⟩],
                 upvalues := st.upvalues ++ [(slot, st.cells.length)] })

/-- The up-value linking loop of `Op::Constant` for a `Function` constant:
each descriptor either copies a cell from the currently executing function
(`is_upvalue_in_outer`) or finds/creates the cell for the absolute slot
`stack_offset + outer_slot`. -/
def linkUpvalues (offset : Nat) (stack : List Value) :
    List (Nat × Bool × Ty) → VMState → Option (List Nat × VMState)
  | [], st => some ([], st)
  | (slot, isUp, _) :: rest, st =>
      if isUp then
        match stack.get? offset with
        | some (.function localUps _) =>
            match localUps.get? slot with
            | some cid =>
                (linkUpvalues offset stack rest st).map fun p => (cid :: p.1, p.2)
            | none => none
        | _ => none
      else
        let p := findUpvalueVM (offset + slot) st
        (linkUpvalues offset stack rest p.2).map fun q => (p.1 :: q.1, q.2)

/-- One iteration of the close loop shared by `Op::Return` and
`Op::JmpNPop`: if the slot has an open up-value, close its cell with the
stack value at that slot and remove the map entry (`VM::drop_upvalue`
guarded by `contains_key`). -/
def closeStep (s : VMState) (slot : Nat) : VMState :=
  match uvLookup slot s.upvalues with
  | none => s
  | some cid =>
      { s with upvalues := uvErase slot s.upvalues,
               cells := s.cells.set cid ⟨0, s.stack.getD slot .nil⟩ }

/-- The close loop over a range of slots. -/
def closeSlots (slots : List Nat) (st : VMState) : VMState :=
  slots.foldl closeStep st

/-- The `one_op!` macro: pop, apply, push; a `Nil` result is pushed and then
reported as `RuntimeTypeError`. -/
def oneOpStep (st : VMState) (op : UOp) (f : Value → Value) : StepOut :=
  match popTop st.stack with
  | none => .crash
  | some (s, a) =>
      let b := f a
      if b.isNil then mkErr { st with stack := s ++ [b] } (.runtimeTypeError op [a])
      else .ok .continueR { st with stack := s ++ [b] }

/-- The `two_op!` macro: `poppop`, apply, push; a `Nil` result is pushed and
then reported as `RuntimeTypeError`; `none` from the (fuelled) operator means
the Rust call never returns. -/
def twoOpStep (st : VMState) (op : UOp) (f : Value → Value → Option Value) : StepOut :=
  match popTop st.stack with
  | none => .crash
  | some (s1, b) =>
      match popTop s1 with
      | none => .crash
      | some (s2, a) =>
          match f a b with
          | none => .crash
          | some c =>
              if c.isNil then mkErr { st with stack := s2 ++ [c] } (.runtimeTypeError op [a, b])
              else .ok .continueR { st with stack := s2 ++ [c] }

/-- `VM::eval_op` of `vm.rs`, arm for arm.  `opFuel` feeds the operator
functions of `mod op`. -/
def evalOp (ext : List ExternFn) (opFuel : Nat) (st : VMState) (op : UOp) : StepOut :=
  match op with
  | .nop => .ok .continueR st
  | .illegal => mkErr st .invalidProgram
  | .unreachableOp => mkErr st .unreachableErr
  | .pop =>
      match popTop st.stack with
      | none => .crash
      | some (s, _) => .ok .continueR { st with stack := s }
  | .tupleOp size =>
      if size ≤ st.stack.length then
        let k := st.stack.length - size
        .ok .continueR { st with stack := st.stack.take k ++ [.tuple (st.stack.drop k)] }
      else .crash
  | .popUpvalue =>
      match popTop st.stack with
      | none => .crash
      | some (s, v) =>
          match uvLookup s.length st.upvalues with
          | none => .crash
          | some cid =>
              .ok .continueR
                { st with stack := s,
                          upvalues := uvErase s.length st.upvalues,
                          cells := st.cells.set cid ⟨0, v⟩ }
  | .copy =>
      match popTop st.stack with
      | none => .crash
      | some (s, v) => .ok .continueR { st with stack := s ++ [v, v] }
  | .yield =>
      match modifyIp st (· + 1) with
      | none => .crash
      | some st' => .ok .yieldR st'
  | .constant k =>
      match st.frames.getLast? with
      | none => .crash
      | some fr =>
          match st.constants.get? k with
          | none => .crash
          | some c =>
              match c with
              | .function _ bref =>
                  match blockOfRef st.blocks bref with
                  | none => .crash
                  | some blk =>
                      match linkUpvalues fr.stackOffset st.stack blk.upvalues st with
                      | none => .crash
                      | some (ups, st1) => .ok .continueR (pushV st1 (.function ups bref))
              | c => .ok .continueR (pushV st c)
  | .index =>
      match popTop st.stack with
      | none => .crash
      | some (s1, slotV) =>
          match popTop s1 with
          | none => .crash
          | some (s2, val) =>
              match val, slotV with
              | .tuple v, .int i =>
                  let idx := intToUsize i
                  if v.length < idx then
                    mkErr { st with stack := s2 ++ [.nil] }
                      (.indexOutOfBounds (.tuple v) v.length idx)
                  else
                    match v.get? idx with
                    | some x => .ok .continueR { st with stack := s2 ++ [x] }
                    | none => .crash
              | val, slotV =>
                  mkErr { st with stack := s2 ++ [.nil] }
                    (.runtimeTypeError .index [val, slotV])
  | .get fieldIdx =>
      match popTop st.stack with
      | none => .crash
      | some (s, inst) =>
          match st.strings.get? fieldIdx with
          | none => .crash
          | some field =>
              match inst with
              | .blobInstance bid vals =>
                  match st.blobs.get? bid with
                  | none => .crash
                  | some blob =>
                      match fieldsGet blob.fields field with
                      | none => .crash
                      | some (slot, _) =>
                          match vals.get? slot with
                          | some v => .ok .continueR { st with stack := s ++ [v] }
                          | none => .crash
              | inst => mkErr { st with stack := s } (.runtimeTypeError (.get fieldIdx) [inst])
  | .set fieldIdx =>
      match popTop st.stack with
      | none => .crash
      | some (s1, _value) =>
          match popTop s1 with
          | none => .crash
          | some (s2, inst) =>
              match st.strings.get? fieldIdx with
              | none => .crash
              | some field =>
                  match inst with
                  | .blobInstance bid vals =>
                      match st.blobs.get? bid with
                      | none => .crash
                      | some blob =>
                          match fieldsGet blob.fields field with
                          | none => .crash
                          | some (slot, _) =>
                              -- the write `values.borrow_mut()[slot] = value` goes
                              -- through the shared cell of the popped instance; its
                              -- aliases are not tracked by this inlined model
                              if slot < vals.length then .ok .continueR { st with stack := s2 }
                              else .crash
                  | inst => mkErr { st with stack := s2 } (.runtimeTypeError (.set fieldIdx) [inst])
  | .neg => oneOpStep st .neg opNeg
  | .add => twoOpStep st .add (addF opFuel)
  | .sub => twoOpStep st .sub (subF opFuel)
  | .mul => twoOpStep st .mul (mulF opFuel)
  | .div => twoOpStep st .div (divF opFuel)
  | .equal => twoOpStep st .equal (eqF opFuel)
  | .less => twoOpStep st .less (lessF opFuel)
  | .greater => twoOpStep st .greater (greaterF opFuel)
  | .andOp => twoOpStep st .andOp (andF opFuel)
  | .orOp => twoOpStep st .orOp (orF opFuel)
  | .notOp => oneOpStep st .notOp opNot
  | .jmp t =>
      match modifyIp st (fun _ => t) with
      | none => .crash
      | some st' => .ok .continueR st'
  | .jmpFalse t =>
      match popTop st.stack with
      | none => .crash
      | some (s, v) =>
          match v with
          | .bool false =>
              match modifyIp { st with stack := s } (fun _ => t) with
              | none => .crash
              | some st' => .ok .continueR st'
          | _ => .ok .continueR { st with stack := s }
  | .jmpNPop t toPop =>
      if toPop ≤ st.stack.length then
        let lo := st.stack.length - toPop
        let st1 := closeSlots (List.range' lo toPop) st
        match modifyIp { st1 with stack := st1.stack.take lo } (fun _ => t) with
        | none => .crash
        | some st' => .ok .continueR st'
      else .crash
  | .assert =>
      match popTop st.stack with
      | none => .crash
      | some (s, v) =>
          match v with
          | .bool false => mkErr { st with stack := s } .assertFailed
          | _ => .ok .continueR { st with stack := s ++ [.bool true] }
  | .readUpvalue slot =>
      match st.frames.getLast? with
      | none => .crash
      | some fr =>
          match st.stack.get? fr.stackOffset with
          | some (.function ups _) =>
              match ups.get? slot with
              | none => .crash
              | some cid =>
                  match st.cells.get? cid with
                  | none => .crash
                  | some cell =>
                      if cell.slot = 0 then .ok .continueR (pushV st cell.value)
                      else
                        match st.stack.get? cell.slot with
                        | some v => .ok .continueR (pushV st v)
                        | none => .crash
          | _ => .crash
  | .assignUpvalue slot =>
      match st.frames.getLast? with
      | none => .crash
      | some fr =>
          match popTop st.stack with
          | none => .crash
          | some (s, value) =>
              match s.get? fr.stackOffset with
              | some (.function ups _) =>
                  match ups.get? slot with
                  | none => .crash
                  | some cid =>
                      match st.cells.get? cid with
                      | none => .crash
                      | some cell =>
                          if cell.slot = 0 then
                            .ok .continueR
                              { st with stack := s, cells := st.cells.set cid ⟨0, value⟩ }
                          else if cell.slot < s.length then
                            .ok .continueR { st with stack := s.set cell.slot value }
                          else .crash
              | _ => .crash
  | .readLocal slot =>
      match st.frames.getLast? with
      | none => .crash
      | some fr =>
          match st.stack.get? (fr.stackOffset + slot) with
          | some v => .ok .continueR (pushV st v)
          | none => .crash
  | .assignLocal slot =>
      match st.frames.getLast? with
      | none => .crash
      | some fr =>
          match popTop st.stack with
          | none => .crash
          | some (s, value) =>
              if fr.stackOffset + slot < s.length then
                .ok .continueR { st with stack := s.set (fr.stackOffset + slot) value }
              else .crash
  | .defineOp _ => .ok .continueR st
  | .call numArgs =>
      if numArgs + 1 ≤ st.stack.length then
        let newBase := st.stack.length - 1 - numArgs
        match st.stack.get? newBase with
        | none => .crash
        | some callee =>
            match callee with
            | .blob bid =>
                match st.blobs.get? bid with
                | none => .crash
                | some blob =>
                    match popTop st.stack with
                    | none => .crash
                    | some (s, _) =>
                        .ok .continueR
                          { st with stack :=
                              s ++ [.blobInstance bid (List.replicate blob.fields.length .nil)] }
            | .function _ bref =>
                match blockOfRef st.blocks bref with
                | none => .crash
                | some blk =>
                    match blk.ty with
                    | .function args _ =>
                        if args.length ≠ numArgs then mkErr st .invalidProgram
                        else
                          .ok .continueR
                            { st with frames := st.frames ++ [⟨newBase, bref, 0⟩] }
                    | _ => .crash
            | .externFunction slot =>
                match ext.get? slot with
                | none => .crash
                | some f =>
                    match f (st.stack.drop (newBase + 1)) false with
                    | .error ek => mkErr st ek
                    | .ok res =>
                        .ok .continueR { st with stack := st.stack.take newBase ++ [res] }
            | _ => .crash
      else .crash
  | .print =>
      match popTop st.stack with
      | none => .crash
      | some (s, _) => .ok .continueR { st with stack := s }
  | .ret =>
      match st.frames.getLast? with
      | none => .crash
      | some last =>
          let frames' := st.frames.dropLast
          if frames'.isEmpty then .ok .doneR { st with frames := frames' }
          else
            match popTop st.stack with
            | none => .crash
            | some (s, top) =>
                if last.stackOffset < s.length then
                  let s2 := s.set last.stackOffset top
                  let st2 := closeSlots
                    (List.range' (last.stackOffset + 1) (s2.length - (last.stackOffset + 1)))
                    { st with stack := s2, frames := frames' }
                  .ok .continueR { st2 with stack := st2.stack.take (last.stackOffset + 1) }
                else .crash

/-- Fetch the op at the current `ip` and advance `ip` (`VM::op`); `none` is
the panic on an exhausted op stream or missing frame. -/
def fetchOp (st : VMState) : Option (UOp × VMState) :=
  match st.frames.getLast? with
  | none => none
  | some fr =>
      match blockOfRef st.blocks fr.block with
      | none => none
      | some blk =>
          match blk.ops.get? fr.ip with
          | none => none
          | some op =>
              some (op, { st with frames := st.frames.dropLast ++ [{ fr with ip := fr.ip + 1 }] })

/-- Outcome of `VM::run`. -/
inductive RunOut where
  | doneO : RunOut
  | yieldO : RunOut
  | errO : ErrKind → RunOut
  | crashO : RunOut
  | fuelOut : RunOut
deriving Repr

/-- `VM::run`: the dispatch loop, with fuel for the outer loop. -/
def runF (ext : List ExternFn) (opFuel : Nat) : Nat → VMState → RunOut
  | 0, _ => .fuelOut
  | n + 1, st =>
      match fetchOp st with
      | none => .crashO
      | some (op, st1) =>
          match evalOp ext opFuel st1 op with
          | .crash => .crashO
          | .err e _ => .errO e
          | .ok .doneR _ => .doneO
          | .ok .yieldR _ => .yieldO
          | .ok .continueR st2 => runF ext opFuel n st2

/-- `VM::init` followed by the implicit first frame: tables loaded, the main
`Function` pushed at slot 0 and the main frame pushed. -/
def initVM (p : ProgV) : VMState :=
  { upvalues := [], cells := [],
    stack := [.function [] (.id 0)],
    frames := [⟨0, .id 0, 0⟩],
    blocks := p.blocks, blobs := p.blobs,
    constants := p.constants, strings := p.strings }

/-! ## Value/type conversions and the typechecking dispatch -/

/-- `HashSet<Type>` collection: keep the first occurrence of each
`Type::eq`-class (set iteration order modelled as insertion order). -/
def dedupTy (ts : List Ty) : List Ty :=
  ts.foldl (fun acc t => if acc.any (fun y => tyEq y t) then acc else acc ++ [t]) []

mutual
/-- `impl From<&Value> for Type` of `lib.rs`.  A `Function`'s type is read
through its block reference (`block.ty`); a dangling arena index — impossible
for a real `Rc` — defaults to `Void`. -/
def tyOfValue (blocks : List BlockV) : Value → Ty
  | .blobInstance b _ => .instanceT b
  | .blob b => .blob b
  | .tuple vs => .tuple (tyOfValues blocks vs)
  | .list vs =>
      let s := dedupTy (tyOfValues blocks vs)
      .list (match s with
             | [] => .unknown
             | [t] => t
             | ts => .union ts)
  | .union vs => .union (tyOfValues blocks vs)
  | .int _ => .int
  | .float _ => .float
  | .bool _ => .bool
  | .string _ => .string
  | .function _ r => ((blockOfRef blocks r).map BlockV.ty).getD .void
  | .unknown => .unknown
  | _ => .void

/-- Pointwise `Type::from` over a member list. -/
def tyOfValues (blocks : List BlockV) : List Value → List Ty
  | [] => []
  | v :: vs => tyOfValue blocks v :: tyOfValues blocks vs
end

mutual
/-- `impl From<&Type> for Value` of `lib.rs` (the zero exemplar of a type).
A `Function` type becomes a function over a stubbed block. -/
def valueOfTy : Ty → Value
  | .void => .nil
  | .blob b => .blob b
  | .instanceT b => .blobInstance b []
  | .tuple fs => .tuple (valuesOfTys fs)
  | .union vs => .union (valuesOfTys vs)
  | .list f => .list [valueOfTy f]
  | .unknown => .unknown
  | .int => .int 1
  | .float => .float (.finite 1)
  | .bool => .bool true
  | .string => .string []
  | .function args retT => .function [] (.stub (.function args retT))

/-- Pointwise `Value::from` over a member list. -/
def valuesOfTys : List Ty → List Value
  | [] => []
  | t :: ts => valueOfTy t :: valuesOfTys ts
end

/-- `Value::identity` of `lib.rs` (the typechecker's exemplar projection). -/
def identityV (blocks : List BlockV) : Value → Value
  | .float _ => .float (.finite 1)
  | .int _ => .int 1
  | .bool _ => .bool true
  | .list vs => valueOfTy (tyOfValue blocks (.list vs))
  | v => v

/-- Outcome of one `check_op` step. -/
inductive CheckOut where
  | okC : VMState → CheckOut
  | errC : ErrKind → VMState → CheckOut
  | crashC : CheckOut

/-- The `types` vector of the `Op::Constant` arm of `check_op`: for each
descriptor, either its declared type or `Type::from` of the stack value at
the (absolute) outer slot. -/
def upTypes (st : VMState) : List (Nat × Bool × Ty) → Option (List Ty)
  | [] => some []
  | (slot, isUp, t) :: rest =>
      if isUp then (upTypes st rest).map fun ts => t :: ts
      else
        match st.stack.get? slot with
        | none => none
        | some v => (upTypes st rest).map fun ts => tyOfValue st.blocks v :: ts

/-- The unification loop of the `Op::Constant` arm of `check_op`: a
descriptor with declared type `Unknown` is refined to the suggestion; a
disagreeing declared type raises `TypeError` immediately (mutations before
the failing descriptor persist, the rest stay untouched). -/
def unifyUps : List (Nat × Bool × Ty) → List Ty →
    (List (Nat × Bool × Ty) × Option ErrKind)
  | [], _ => ([], none)
  | d :: rest, [] => (d :: rest, none)
  | (slot, isUp, t) :: rest, sug :: sugs =>
      if isUp then
        let (rest', e) := unifyUps rest sugs
        ((slot, isUp, t) :: rest', e)
      else
        match t with
        | .unknown =>
            let (rest', e) := unifyUps rest sugs
            ((slot, isUp, sug) :: rest', e)
        | t =>
            if tyEq t sug then
              let (rest', e) := unifyUps rest sugs
              ((slot, isUp, t) :: rest', e)
            else
              ((slot, isUp, t) :: rest,
               some (.typeError (.constant 0) [t, sug]))

/-- Write a block's (possibly refined) descriptors back through its
reference; a stub is an orphan whose mutation is unobservable. -/
def setBlockUps (st : VMState) : BlockRef → List (Nat × Bool × Ty) → VMState
  | .id n, descs =>
      match st.blocks.get? n with
      | some blk => { st with blocks := st.blocks.set n { blk with upvalues := descs } }
      | none => st
  | .stub _, _ => st

/-- The `Blob` arm of `check_op`'s `Op::Call`: fill the exemplar instance
field vector slot by slot (`values[*slot] = ty.into()`, panicking out of
bounds). -/
def fillFields : List (List Char × Nat × Ty) → List Value → Option (List Value)
  | [], vals => some vals
  | (_, slot, t) :: rest, vals =>
      if slot < vals.length then fillFields rest (vals.set slot (valueOfTy t))
      else none

/-- `VM::check_op` of `vm.rs`, arm for arm; the default arm delegates to
`eval_op` and discards its `OpResult`. -/
def checkOp (ext : List ExternFn) (opFuel : Nat) (st : VMState) (op : UOp) : CheckOut :=
  match op with
  | .unreachableOp => .okC st
  | .jmp _ => .okC st
  | .yield => .okC st
  | .constant k =>
      match st.constants.get? k with
      | none => .crashC
      | some c =>
          match c with
          | .function _ bref =>
              let st1 := pushV st (.function [] bref)
              match blockOfRef st1.blocks bref with
              | none => .crashC
              | some blk =>
                  match upTypes st1 blk.upvalues with
                  | none => .crashC
                  | some types =>
                      match unifyUps blk.upvalues types with
                      | (descs, none) => .okC (setBlockUps st1 bref descs)
                      | (descs, some e) => .errC e (setBlockUps st1 bref descs)
          | c => .okC (pushV st c)
  | .get fieldIdx =>
      match popTop st.stack with
      | none => .crashC
      | some (s, inst) =>
          match st.strings.get? fieldIdx with
          | none => .crashC
          | some field =>
              match inst with
              | .blobInstance bid _ =>
                  match st.blobs.get? bid with
                  | none => .crashC
                  | some blob =>
                      match fieldsGet blob.fields field with
                      | none => .crashC
                      | some (_, t) => .okC { st with stack := s ++ [valueOfTy t] }
              | inst =>
                  .errC (.runtimeTypeError (.get fieldIdx) [inst]) { st with stack := s ++ [.nil] }
  | .set fieldIdx =>
      match popTop st.stack with
      | none => .crashC
      | some (s1, value) =>
          match popTop s1 with
          | none => .crashC
          | some (s2, inst) =>
              match st.strings.get? fieldIdx with
              | none => .crashC
              | some field =>
                  match inst with
                  | .blobInstance bid _ =>
                      match st.blobs.get? bid with
                      | none => .crashC
                      | some blob =>
                          match fieldsGet blob.fields field with
                          | none => .crashC
                          | some (_, t) =>
                              if tyEq t (tyOfValue st.blocks value) then
                                .okC { st with stack := s2 }
                              else
                                .errC (.runtimeTypeError (.set fieldIdx) [inst])
                                  { st with stack := s2 }
                  | inst =>
                      .errC (.runtimeTypeError (.set fieldIdx) [inst]) { st with stack := s2 }
  | .popUpvalue =>
      match popTop st.stack with
      | none => .crashC
      | some (s, _) => .okC { st with stack := s }
  | .readUpvalue slot =>
      match st.frames.getLast? with
      | none => .crashC
      | some fr =>
          match blockOfRef st.blocks fr.block with
          | none => .crashC
          | some blk =>
              match blk.upvalues.get? slot with
              | none => .crashC
              | some (_, _, t) => .okC (pushV st (valueOfTy t))
  | .assignUpvalue slot =>
      match st.frames.getLast? with
      | none => .crashC
      | some fr =>
          match blockOfRef st.blocks fr.block with
          | none => .crashC
          | some blk =>
              match blk.upvalues.get? slot with
              | none => .crashC
              | some (_, _, declared) =>
                  match popTop st.stack with
                  | none => .crashC
                  | some (s, v) =>
                      let up := tyOfValue st.blocks v
                      if tyEq declared up then .okC { st with stack := s }
                      else
                        .errC (.typeError (.assignUpvalue slot) [declared, up])
                          { st with stack := s }
  | .ret =>
      match popTop st.stack with
      | none => .crashC
      | some (s, a) =>
          match st.frames.getLast? with
          | none => .crashC
          | some fr =>
              match blockOfRef st.blocks fr.block with
              | none => .crashC
              | some blk =>
                  match blk.ty with
                  | .function _ retT =>
                      if tyEq (tyOfValue st.blocks a) retT then .okC { st with stack := s }
                      else
                        .errC (.typeError .ret [tyOfValue st.blocks a, retT])
                          { st with stack := s }
                  | _ => .crashC
  | .print =>
      match popTop st.stack with
      | none => .crashC
      | some (s, _) => .okC { st with stack := s }
  | .defineOp k =>
      match st.constants.get? k with
      | none => .crashC
      | some (.ty t) =>
          match st.stack.getLast? with
          | none => .crashC
          | some top =>
              let topTy := tyOfValue st.blocks top
              match t with
              | .unknown =>
                  if tyEq topTy .unknown then
                    if tyEq .unknown topTy then .okC st
                    else .errC (.typeError (.defineOp k) [.unknown, topTy]) st
                  else .okC st
              | t =>
                  if tyEq t topTy then .okC st
                  else .errC (.typeError (.defineOp k) [t, topTy]) st
      | some _ => .crashC
  | .call numArgs =>
      if numArgs + 1 ≤ st.stack.length then
        let newBase := st.stack.length - 1 - numArgs
        match st.stack.get? newBase with
        | none => .crashC
        | some callee =>
            match callee with
            | .blob bid =>
                match st.blobs.get? bid with
                | none => .crashC
                | some blob =>
                    match fillFields blob.fields
                        (List.replicate blob.fields.length .nil) with
                    | none => .crashC
                    | some vals =>
                        match popTop st.stack with
                        | none => .crashC
                        | some (s, _) =>
                            .okC { st with stack := s ++ [.blobInstance bid vals] }
            | .function _ bref =>
                match blockOfRef st.blocks bref with
                | none => .crashC
                | some blk =>
                    match blk.ty with
                    | .function args retT =>
                        if args.length ≠ numArgs then .errC .invalidProgram st
                        else
                          let stackArgs :=
                            (st.stack.drop (st.stack.length - args.length)).map
                              (tyOfValue st.blocks)
                          if tyVecEq args stackArgs then
                            .okC { st with stack :=
                              (st.stack.set newBase (valueOfTy retT)).take (newBase + 1) }
                          else .errC (.typeError (.call numArgs) []) st
                    | _ => .crashC
            | .externFunction slot =>
                match ext.get? slot with
                | none => .crashC
                | some f =>
                    match f (st.stack.drop (newBase + 1)) false with
                    | .error ek =>
                        .errC ek { st with stack := st.stack.take newBase ++ [.nil] }
                    | .ok res =>
                        .okC { st with stack := st.stack.take newBase ++ [res] }
            | other =>
                .errC (.typeError (.call numArgs) [tyOfValue st.blocks other]) st
      else .crashC
  | .jmpFalse t =>
      match popTop st.stack with
      | none => .crashC
      | some (s, v) =>
          match v with
          | .bool _ => .okC { st with stack := s }
          | a =>
              .errC (.typeError (.jmpFalse t) [tyOfValue st.blocks a]) { st with stack := s }
  | .jmpNPop _ _ => .okC st
  | op =>
      match evalOp ext opFuel st op with
      | .ok _ st' => .okC st'
      | .err e st' => .errC e st'
      | .crash => .crashC

/-- Outcome of a typechecking pass. -/
inductive TCOut where
  | out : List ErrKind → VMState → TCOut
  | crash : TCOut
  | fuelOut : TCOut

/-- The exemplar replacement after every checked op: if the stack is
nonempty, pop the top and push its `identity`. -/
def identityStep (st : VMState) : VMState :=
  match popTop st.stack with
  | none => st
  | some (s, v) => { st with stack := s ++ [identityV st.blocks v] }

/-- The loop of `VM::typecheck_block`: stop once `ip` runs off the op
stream; a failed `check_op` records the error and additionally advances
`ip`. -/
def tcLoop (ext : List ExternFn) (opFuel : Nat) : Nat → VMState → List ErrKind → TCOut
  | 0, _, _ => .fuelOut
  | n + 1, st, errs =>
      match st.frames.getLast? with
      | none => .crash
      | some fr =>
          match blockOfRef st.blocks fr.block with
          | none => .crash
          | some blk =>
              if blk.ops.length ≤ fr.ip then .out errs st
              else
                match fetchOp st with
                | none => .crash
                | some (op, st1) =>
                    match checkOp ext opFuel st1 op with
                    | .okC st2 => tcLoop ext opFuel n (identityStep st2) errs
                    | .errC e st2 =>
                        match modifyIp st2 (· + 1) with
                        | none => .crash
                        | some st3 => tcLoop ext opFuel n (identityStep st3) (errs ++ [e])
                    | .crashC => .crash

/-- `VM::typecheck_block`: reset the stack and frames, push the block's
function and one exemplar per declared argument, and run the check loop. -/
def typecheckBlockF (ext : List ExternFn) (opFuel fuel : Nat) (bref : BlockRef)
    (st : VMState) : TCOut :=
  match blockOfRef st.blocks bref with
  | none => .crash
  | some blk =>
      match blk.ty with
      | .function args _ =>
          tcLoop ext opFuel fuel
            { st with stack := .function [] bref :: args.map valueOfTy,
                      frames := [⟨0, bref, 0⟩] } []
      | _ => .crash

/-- The per-block iteration of `VM::typecheck` (block mutations thread
through the arena). -/
def tcBlocks (ext : List ExternFn) (opFuel fuel : Nat) :
    List Nat → VMState → List ErrKind → TCOut
  | [], st, errs => .out errs st
  | i :: rest, st, errs =>
      match typecheckBlockF ext opFuel fuel (.id i) st with
      | .out errs' st' => tcBlocks ext opFuel fuel rest st' (errs ++ errs')
      | .crash => .crash
      | .fuelOut => .fuelOut

/-- `VM::typecheck`: load the program tables and check every block once. -/
def typecheckF (ext : List ExternFn) (opFuel fuel : Nat) (p : ProgV) : TCOut :=
  tcBlocks ext opFuel fuel (List.range p.blocks.length)
    { upvalues := [], cells := [], stack := [], frames := [],
      blocks := p.blocks, blobs := p.blobs,
      constants := p.constants, strings := p.strings } []

/-- The accumulated error kinds of a typechecking pass (`none` on a panic or
fuel exhaustion). -/
def tcErrors : TCOut → Option (List ErrKind)
  | .out e _ => some e
  | _ => none

/-! ## The compiler's scope bookkeeping (`compiler.rs`) -/

/-- `struct Variable` of `compiler.rs`. -/
structure CVar where
  name : String
  typ : Ty
  scope : Nat
  slot : Nat
  outerSlot : Nat
  outerUpvalue : Bool
  active : Bool
  upvalue : Bool
  captured : Bool
  mutable : Bool
deriving Repr

/-- A compiler `Frame` (the loop bookkeeping is elided; no claim touches
it). -/
structure CFrame where
  stack : List CVar
  upvalues : List CVar
  scope : Nat
deriving Repr

/-- A recorded compiler error; only the kind/message matters to the claims,
the `file`/`line`/`token` decorations are elided. -/
inductive CErr where
  | syntaxError : String → CErr
deriving Repr, DecidableEq

/-- The scope-relevant part of `struct Compiler`: the frame stack, the panic
flag and the accumulated errors. -/
structure CState where
  frames : List CFrame
  panic : Bool
  errors : List CErr
deriving Repr

/-- The reverse-iteration search shared by `Frame::find_local` and
`Frame::find_upvalue`: the first (in reverse order) active variable with the
name. -/
def findFirst : List CVar → String → Option CVar
  | [], _ => none
  | v :: rest, name => if v.name == name && v.active then some v else findFirst rest name

/-- `Frame::find_local`. -/
def CFrame.findLocal (f : CFrame) (name : String) : Option CVar :=
  findFirst f.stack.reverse name

/-- `Frame::find_upvalue`. -/
def CFrame.findUpvalue (f : CFrame) (name : String) : Option CVar :=
  findFirst f.upvalues.reverse name

/-- `Frame::add_upvalue`: wrap the outer variable as a new up-value of this
frame and return the wrapper. -/
def CFrame.addUpvalue (f : CFrame) (v : CVar) : CVar × CFrame :=
  let nv : CVar :=
    { v with outerUpvalue := v.upvalue, outerSlot := v.slot,
             slot := f.upvalues.length, active := true, upvalue := true }
  (nv, { f with upvalues := f.upvalues ++ [nv] })

/-- `frame.stack[res.slot].captured = true` of
`Compiler::find_and_capture_variable`. -/
def markCaptured (f : CFrame) (slot : Nat) : CFrame :=
  match f.stack.get? slot with
  | some v => { f with stack := f.stack.set slot { v with captured := true } }
  | none => f

/-- `Compiler::find_and_capture_variable` over the frames in iteration order
(innermost first): find the variable, mark the owning slot captured, and
thread an up-value wrapper through every intermediate frame. -/
def findAndCapture (name : String) : List CFrame → Option CVar × List CFrame
  | [] => (none, [])
  | f :: rest =>
      match f.findLocal name with
      | some res => (some res, markCaptured f res.slot :: rest)
      | none =>
          match f.findUpvalue name with
          | some res => (some res, f :: rest)
          | none =>
              match findAndCapture name rest with
              | (some res, rest') =>
                  let p := f.addUpvalue res
                  (some p.1, p.2 :: rest')
              | (none, rest') => (none, f :: rest')

/-- `Compiler::find_variable`: current frame's locals, then its up-values,
then the capturing search over all frames (`self.frames.iter_mut().rev()`).
`Compiler::frame` panics without frames; the compiler always holds one. -/
def findVariable (name : String) (st : CState) : Option CVar × CState :=
  match st.frames.getLast? with
  | none => (none, st)
  | some cur =>
      match cur.findLocal name with
      | some res => (some res, st)
      | none =>
          match cur.findUpvalue name with
          | some res => (some res, st)
          | none =>
              let p := findAndCapture name st.frames.reverse
              (p.1, { st with frames := p.2.reverse })

/-- `Compiler::error`: record the error and enter panic mode, unless already
panicking (then it is swallowed). -/
def errorC (st : CState) (e : CErr) : CState :=
  if st.panic then st else { st with panic := true, errors := st.errors ++ [e] }

/-- The push half of `Compiler::define_variable`: append the new, inactive,
mutable variable to the current frame. -/
def pushNewVar (name : String) (typ : Ty) (st : CState) : Except Unit Nat × CState :=
  match st.frames.getLast? with
  | none => (.error (), st)
  | some cur =>
      let nv : CVar :=
        { name := name, typ := typ, scope := cur.scope, slot := cur.stack.length,
          outerSlot := 0, outerUpvalue := false, active := false, upvalue := false,
          captured := false, mutable := true }
      (.ok cur.stack.length,
       { st with frames := st.frames.dropLast ++ [{ cur with stack := cur.stack ++ [nv] }] })

/-- `Compiler::define_variable`: error (`Multiple definitions …`) when the
resolved variable's `scope` equals the current frame's `scope`, otherwise
push the new variable. -/
def defineVariable (name : String) (typ : Ty) (st : CState) : Except Unit Nat × CState :=
  let p := findVariable name st
  let curScope := ((p.2.frames.getLast?).map CFrame.scope).getD 0
  match p.1 with
  | some v =>
      if v.scope = curScope then
        (.error (), errorC p.2 (.syntaxError "Multiple definitions in this block."))
      else pushNewVar name typ p.2
  | none => pushNewVar name typ p.2

/-! ## The speculative-parse macro `parse_branch!` (`compiler.rs`) -/

/-- The compiler state touched by `parse_branch!`: the token cursor, the
block's op buffer, the error list and the panic flag.  An alternative is a
state transformer that signals failure through the panic flag. -/
structure PState where
  curr : Nat
  ops : List UOp
  errors : List CErr
  panic : Bool
deriving Repr

/-- Result of `parse_branch!`: the success flag and resulting state, or the
panic of the `usize` underflow in the thrown-errors arithmetic. -/
inductive BranchOut where
  | out : Bool → PState → BranchOut
  | crash : BranchOut
deriving Repr

/-- The alternative loop of `parse_branch!`.  After a failed alternative the
panic flag is cleared, the cursor and op buffer are rewound, and
`errors.split_off(errors.len() - num_errors - 1)` moves a suffix of the
error list into `stored_errors`.  When no alternative succeeds the stored
errors are appended back. -/
def branchGo (tokenLength numErrors blockLength : Nat) :
    List (PState → PState) → PState → List CErr → BranchOut
  | [], st, stored => .out false { st with errors := st.errors ++ stored }
  | alt :: rest, st, stored =>
      let st1 := alt st
      if st1.panic = false then .out true st1
      else if st1.errors.length < numErrors + 1 then .crash
      else
        let cut := st1.errors.length - numErrors - 1
        branchGo tokenLength numErrors blockLength rest
          { st1 with panic := false, curr := tokenLength,
                     errors := st1.errors.take cut, ops := st1.ops.take blockLength }
          (stored ++ st1.errors.drop cut)

/-- `parse_branch!` of `compiler.rs`: snapshot `(block_length, token_length,
num_errors)`, try the alternatives in order, rewinding after each failure;
if the compiler is already panicking nothing is attempted. -/
def parseBranch (alts : List (PState → PState)) (st : PState) : BranchOut :=
  if st.panic then .out false st
  else branchGo st.curr st.errors.length st.ops.length alts st []

/-! ## Concrete programs and states used by the claims -/

/-- A fresh VM state with the given stack and a single frame — the ambient
state for single-op claims. -/
def mkState (stack : List Value) : VMState :=
  { upvalues := [], cells := [], stack := stack, frames := [⟨0, .id 0, 0⟩],
    blocks := [], blobs := [], constants := [], strings := [] }

/-- The block the compiler emits for the source program `(1, 2)[2]` (tuple
expression, index expression, expression-statement `Pop`, then the
`Constant(Nil); Return` tail appended by `Compiler::compile`). -/
def c1MainBlock : BlockV :=
  { ty := .function [] .void,
    upvalues := [],
    ops := [.constant 1, .constant 2, .tupleOp 2, .constant 3, .index, .pop,
            .constant 0, .ret] }

/-- The program for `(1, 2)[2]`: constant pool `[Nil, 1, 2, 2]` (`Nil` always
at index 0), a single main block, no blobs, strings or externs. -/
def c1Prog : ProgV :=
  { blocks := [c1MainBlock], blobs := [],
    constants := [.nil, .int 1, .int 2, .int 2], strings := [] }

/-- Discriminant of a value's kind (which `Value` enum variant it is). -/
def Value.kindIdx : Value → Nat
  | .ty _ => 0
  | .blob _ => 1
  | .blobInstance _ _ => 2
  | .tuple _ => 3
  | .list _ => 4
  | .union _ => 5
  | .float _ => 6
  | .int _ => 7
  | .bool _ => 8
  | .string _ => 9
  | .function _ _ => 10
  | .externFunction _ => 11
  | .unknown => 12
  | .nil => 13

/-- Whether a value is a `Union` (typecheck-only). -/
def Value.isUnion : Value → Bool
  | .union _ => true
  | _ => false

/-- Whether a value is the `Unknown` sentinel (typecheck-only). -/
def Value.isUnknown : Value → Bool
  | .unknown => true
  | _ => false

/-- Modelled from the spec: the lexicographic order on equal-length tuples
"induced by componentwise less" — the first component pair on which `less`
decides, decides. -/
def lexLessSpec (n : Nat) : List Value → List Value → Option Value
  | [], _ => some (.bool false)
  | _, [] => some (.bool false)
  | x :: xs, y :: ys =>
      match lessF n x y with
      | some (.bool true) => some (.bool true)
      | _ =>
          match lessF n y x with
          | some (.bool true) => some (.bool false)
          | _ => lexLessSpec n xs ys

mutual
/-- Types with no `Unknown` and no empty `Union` anywhere (hereditarily):
the domain on which the `fits`/`Type::eq` pair behaves reflexively. -/
def concreteTy : Ty → Bool
  | .unknown => false
  | .tuple ts => concreteTys ts
  | .union s => !s.isEmpty && concreteTys s
  | .list a => concreteTy a
  | .function args retT => concreteTys args && concreteTy retT
  | _ => true

/-- `concreteTy` over every member of a list. -/
def concreteTys : List Ty → Bool
  | [] => true
  | t :: ts => concreteTy t && concreteTys ts
end

/-- Reachability through nested `Union` members: `z` is a member of `s`, or a
member of a union nested (hereditarily) inside `s`. -/
inductive MemVia : Ty → List Ty → Prop where
  | base {z : Ty} {s : List Ty} : z ∈ s → MemVia z s
  | step {z : Ty} {s t : List Ty} : Ty.union t ∈ s → MemVia z t → MemVia z s

/-- Whether a type is a `Union`. -/
def Ty.isUnionTy : Ty → Bool
  | .union _ => true
  | _ => false

/-- An enclosing function's variable `x`, recorded at scope depth 1 and
active. -/
def c6OuterVar : CVar :=
  { name := "x", typ := .unknown, scope := 1, slot := 0, outerSlot := 0,
    outerUpvalue := false, active := true, upvalue := false, captured := false,
    mutable := true }

/-- A compiler state with two call frames: the outer one owns `x` (declared
inside a block, scope depth 1) and the inner one — the body of a nested
function — is also at scope depth 1 and owns nothing. -/
def c6State : CState :=
  { frames := [⟨[c6OuterVar], [], 1⟩, ⟨[], [], 1⟩], panic := false, errors := [] }

/-- An error recorded before the speculation begins. -/
def c7PreError : CErr := .syntaxError "recorded before speculation"

/-- The error an alternative records when it fails. -/
def c7AltError : CErr := .syntaxError "first alternative failed"

/-- A failing alternative: consumes a token, emits an op, then records an
error and panics (the shape of any failed parse). -/
def c7FailAlt : PState → PState := fun st =>
  if st.panic then st
  else { st with panic := true, errors := st.errors ++ [c7AltError],
                 curr := st.curr + 1, ops := st.ops ++ [.pop] }

/-- A succeeding alternative: consumes two tokens and emits an op. -/
def c7OkAlt : PState → PState := fun st =>
  { st with curr := st.curr + 2, ops := st.ops ++ [.add] }

/-- The compiler state entering the speculation: one error already
recorded, not panicking. -/
def c7Start : PState := { curr := 5, ops := [.nop], errors := [c7PreError], panic := false }

/-- The VM state of the concrete `Return` witness: two frames, the inner one
at stack offset 1, an open up-value on slot 2 backed by cell 0. -/
def c2State : VMState :=
  { upvalues := [(2, 0)], cells := [⟨2, .nil⟩],
    stack := [.function [] (.id 0), .function [] (.id 1), .int 5, .int 9],
    frames := [⟨0, .id 0, 3⟩, ⟨1, .id 1, 7⟩],
    blocks := [], blobs := [], constants := [], strings := [] }

/-! ## Helper lemmas -/

theorem popTop_append : ∀ (s : List Value) (v : Value), popTop (s ++ [v]) = some (s, v)
  | [], _ => rfl
  | [_], _ => rfl
  | a :: b :: t, v => by
      have ih := popTop_append (b :: t) v
      simp only [List.cons_append] at ih ⊢
      rw [popTop, ih]

theorem isEmpty_false_of_ne_nil {α : Type} {l : List α} (h : l ≠ []) : l.isEmpty = false := by
  cases l with
  | nil => exact absurd rfl h
  | cons a t => rfl

theorem listGet?SetSelf {α : Type} :
    ∀ (l : List α) (i : Nat) (v : α), i < l.length → (l.set i v).get? i = some v
  | _ :: _, 0, _, _ => rfl
  | _ :: t, i + 1, v, h => listGet?SetSelf t i v (by simpa using h)

theorem listGet?SetNe {α : Type} :
    ∀ (l : List α) (i j : Nat) (v : α), i ≠ j → (l.set i v).get? j = l.get? j
  | [], _, _, _, _ => rfl
  | _ :: _, 0, 0, _, h => absurd rfl h
  | _ :: _, 0, _ + 1, _, _ => rfl
  | _ :: _, _ + 1, 0, _, _ => rfl
  | _ :: t, i + 1, j + 1, v, h => listGet?SetNe t i j v (by omega)

theorem listGet?TakeLt {α : Type} :
    ∀ (l : List α) (n j : Nat), j < n → (l.take n).get? j = l.get? j
  | [], _, _, _ => by simp
  | _ :: _, _ + 1, 0, _ => rfl
  | _ :: t, n + 1, j + 1, h => listGet?TakeLt t n j (by omega)
  | _ :: _, 0, _, h => absurd h (by omega)

theorem listGetDSetNe {α : Type} :
    ∀ (l : List α) (i j : Nat) (v d : α), i ≠ j → (l.set i v).getD j d = l.getD j d
  | [], _, _, _, _, _ => rfl
  | _ :: _, 0, 0, _, _, h => absurd rfl h
  | _ :: _, 0, _ + 1, _, _, _ => rfl
  | _ :: _, _ + 1, 0, _, _, _ => rfl
  | _ :: t, i + 1, j + 1, v, d, h => listGetDSetNe t i j v d (by omega)

theorem uvLookup_mem : ∀ {l : List (Nat × Nat)} {slot cid : Nat},
    uvLookup slot l = some cid → (slot, cid) ∈ l := by
  intro l
  induction l with
  | nil => intro slot cid h; simp [uvLookup] at h
  | cons p t ih =>
      intro slot cid h
      by_cases hk : p.1 = slot
      · simp [uvLookup, hk] at h
        subst h
        have : p = (slot, p.2) := by
          rw [← hk]
        exact this ▸ List.mem_cons_self p t
      · simp [uvLookup, hk] at h
        exact List.mem_cons_of_mem _ (ih h)

theorem uvLookup_eq_of_mem : ∀ {l : List (Nat × Nat)} {slot cid : Nat},
    (l.map Prod.fst).Nodup → (slot, cid) ∈ l → uvLookup slot l = some cid := by
  intro l
  induction l with
  | nil => intro slot cid _ h; simp at h
  | cons p t ih =>
      intro slot cid hnd hm
      obtain ⟨hhead, htail⟩ := List.nodup_cons.mp hnd
      rcases List.mem_cons.mp hm with h | h
      · subst h; simp [uvLookup]
      · have hk : p.1 ≠ slot := by
          intro hcontra
          exact hhead (hcontra ▸ List.mem_map_of_mem Prod.fst h)
        simp [uvLookup, hk]
        exact ih htail h

theorem uvLookup_eq_none_of_not_mem : ∀ {l : List (Nat × Nat)} {slot : Nat},
    slot ∉ l.map Prod.fst → uvLookup slot l = none := by
  intro l
  induction l with
  | nil => intro slot _; rfl
  | cons p t ih =>
      intro slot h
      have h1 : p.1 ≠ slot := by
        intro hc
        exact h (hc ▸ List.mem_map_of_mem Prod.fst (List.mem_cons_self p t))
      have h2 : slot ∉ t.map Prod.fst := by
        intro hc
        exact h (List.mem_cons_of_mem _ hc)
      simp [uvLookup, h1]
      exact ih h2

theorem uvErase_sublist : ∀ (slot : Nat) (l : List (Nat × Nat)),
    List.Sublist (uvErase slot l) l := by
  intro slot l
  induction l with
  | nil => simp [uvErase]
  | cons p t ih =>
      by_cases hk : p.1 = slot
      · simp only [uvErase, if_pos hk]
        exact List.sublist_cons_self p t
      · simp only [uvErase, if_neg hk]
        exact ih.cons₂ p

theorem mem_uvErase_of_ne : ∀ {l : List (Nat × Nat)} {q c slot : Nat},
    (q, c) ∈ l → q ≠ slot → (q, c) ∈ uvErase slot l := by
  intro l
  induction l with
  | nil => intro q c slot h _; simp at h
  | cons p t ih =>
      intro q c slot hm hne
      by_cases hk : p.1 = slot
      · simp only [uvErase, if_pos hk]
        rcases List.mem_cons.mp hm with h | h
        · refine absurd ?_ hne
          have hq : q = p.1 := by rw [← h]
          rw [hq]; exact hk
        · exact h
      · simp only [uvErase, if_neg hk]
        rcases List.mem_cons.mp hm with h | h
        · exact h ▸ List.mem_cons_self p _
        · exact List.mem_cons_of_mem _ (ih h hne)

theorem not_mem_keys_uvErase_self : ∀ {l : List (Nat × Nat)} {slot : Nat},
    (l.map Prod.fst).Nodup → slot ∉ (uvErase slot l).map Prod.fst := by
  intro l
  induction l with
  | nil => intro slot _; simp [uvErase]
  | cons p t ih =>
      intro slot hnd
      obtain ⟨hhead, htail⟩ := List.nodup_cons.mp hnd
      by_cases hk : p.1 = slot
      · simp only [uvErase, if_pos hk]
        intro hc
        exact hhead (hk ▸ hc)
      · simp only [uvErase, if_neg hk, List.map_cons]
        intro hc
        rcases List.mem_cons.mp hc with h | h
        · exact hk h.symm
        · exact ih htail h

theorem closeStep_stack (s : VMState) (slot : Nat) : (closeStep s slot).stack = s.stack := by
  unfold closeStep; split <;> rfl

theorem closeStep_frames (s : VMState) (slot : Nat) : (closeStep s slot).frames = s.frames := by
  unfold closeStep; split <;> rfl

theorem closeStep_cells_length (s : VMState) (slot : Nat) :
    (closeStep s slot).cells.length = s.cells.length := by
  unfold closeStep; split
  · rfl
  · simp

theorem closeStep_upvalues_sublist (s : VMState) (slot : Nat) :
    List.Sublist (closeStep s slot).upvalues s.upvalues := by
  unfold closeStep; split
  · exact List.Sublist.refl _
  · exact uvErase_sublist slot s.upvalues

theorem closeSlots_stack : ∀ (slots : List Nat) (st : VMState),
    (closeSlots slots st).stack = st.stack := by
  intro slots
  induction slots with
  | nil => intro st; rfl
  | cons s0 rest ih =>
      intro st
      show (closeSlots rest (closeStep st s0)).stack = st.stack
      rw [ih, closeStep_stack]

theorem closeSlots_frames : ∀ (slots : List Nat) (st : VMState),
    (closeSlots slots st).frames = st.frames := by
  intro slots
  induction slots with
  | nil => intro st; rfl
  | cons s0 rest ih =>
      intro st
      show (closeSlots rest (closeStep st s0)).frames = st.frames
      rw [ih, closeStep_frames]

theorem closeSlots_cells_untouched : ∀ (slots : List Nat) (st : VMState) (c : Nat),
    (∀ p ∈ st.upvalues, p.2 ≠ c) →
    (closeSlots slots st).cells.get? c = st.cells.get? c := by
  intro slots
  induction slots with
  | nil => intro st c _; rfl
  | cons s0 rest ih =>
      intro st c hc
      show (closeSlots rest (closeStep st s0)).cells.get? c = st.cells.get? c
      have hsub := closeStep_upvalues_sublist st s0
      have hc1 : ∀ p ∈ (closeStep st s0).upvalues, p.2 ≠ c :=
        fun p hp => hc p (hsub.subset hp)
      rw [ih _ c hc1]
      unfold closeStep
      split
      · rfl
      · next cid hlk =>
          have hm := uvLookup_mem hlk
          exact listGet?SetNe _ _ _ _ (hc _ hm)

theorem closeSlots_upvalues_sublist : ∀ (slots : List Nat) (st : VMState),
    List.Sublist (closeSlots slots st).upvalues st.upvalues := by
  intro slots
  induction slots with
  | nil => intro st; exact List.Sublist.refl _
  | cons r rs ih =>
      intro st
      exact (ih (closeStep st r)).trans (closeStep_upvalues_sublist st r)

/-- Full description of the close loop on a list of slots: entries whose slot
is in the list are removed from the map and their cells closed with the stack
value at the slot; other entries and their cells are untouched. -/
theorem closeSlots_spec : ∀ (slots : List Nat) (st : VMState),
    (st.upvalues.map Prod.fst).Nodup →
    (st.upvalues.map Prod.snd).Nodup →
    (∀ p ∈ st.upvalues, p.2 < st.cells.length) →
    slots.Nodup →
    ((∀ slot cid, (slot, cid) ∈ st.upvalues → slot ∈ slots →
        uvLookup slot (closeSlots slots st).upvalues = none ∧
        (closeSlots slots st).cells.get? cid = some ⟨0, st.stack.getD slot .nil⟩) ∧
     (∀ slot cid, (slot, cid) ∈ st.upvalues → slot ∉ slots →
        (slot, cid) ∈ (closeSlots slots st).upvalues ∧
        (closeSlots slots st).cells.get? cid = st.cells.get? cid)) := by
  intro slots
  induction slots with
  | nil =>
      intro st _ _ _ _
      exact ⟨fun slot cid _ hin => absurd hin (List.not_mem_nil slot),
             fun slot cid hm _ => ⟨hm, rfl⟩⟩
  | cons s0 rest ih =>
      intro st hk hc hlen hnd
      obtain ⟨hs0rest, hrestnd⟩ := List.nodup_cons.mp hnd
      have hstep : closeSlots (s0 :: rest) st = closeSlots rest (closeStep st s0) := rfl
      have hsub := closeStep_upvalues_sublist st s0
      have hk1 : ((closeStep st s0).upvalues.map Prod.fst).Nodup :=
        (hsub.map Prod.fst).nodup hk
      have hc1 : ((closeStep st s0).upvalues.map Prod.snd).Nodup :=
        (hsub.map Prod.snd).nodup hc
      have hlen1 : ∀ p ∈ (closeStep st s0).upvalues, p.2 < (closeStep st s0).cells.length := by
        intro p hp
        rw [closeStep_cells_length]
        exact hlen p (hsub.subset hp)
      have ihr := ih (closeStep st s0) hk1 hc1 hlen1 hrestnd
      cases h0 : uvLookup s0 st.upvalues with
      | none =>
          have hid : closeStep st s0 = st := by
            unfold closeStep
            rw [h0]
          rw [hstep, hid]
          rw [hid] at ihr
          constructor
          · intro slot cid hm hin
            rcases List.mem_cons.mp hin with h | h
            · subst h
              rw [uvLookup_eq_of_mem hk hm] at h0
              exact absurd h0 (by simp)
            · exact ihr.1 slot cid hm h
          · intro slot cid hm hnin
            exact ihr.2 slot cid hm (fun hc' => hnin (List.mem_cons_of_mem _ hc'))
      | some c0 =>
          have hm0 : (s0, c0) ∈ st.upvalues := uvLookup_mem h0
          have hupv : (closeStep st s0).upvalues = uvErase s0 st.upvalues := by
            unfold closeStep; rw [h0]
          have hcells : (closeStep st s0).cells
              = st.cells.set c0 ⟨0, st.stack.getD s0 .nil⟩ := by
            unfold closeStep; rw [h0]
          have hstk : (closeStep st s0).stack = st.stack := closeStep_stack st s0
          rw [hstep]
          constructor
          · intro slot cid hm hin
            by_cases hse : slot = s0
            · -- this very slot is closed by the first iteration
              have hcid : cid = c0 := by
                have h2 := uvLookup_eq_of_mem hk hm
                rw [hse, h0] at h2
                exact (Option.some.injEq _ _).mp h2.symm
              have hnotkey : slot ∉ ((closeStep st s0).upvalues.map Prod.fst) := by
                rw [hupv, hse]
                exact not_mem_keys_uvErase_self hk
              refine ⟨?_, ?_⟩
              · refine uvLookup_eq_none_of_not_mem ?_
                intro hmem
                exact hnotkey
                  (((closeSlots_upvalues_sublist rest (closeStep st s0)).map
                    Prod.fst).subset hmem)
              · -- the cell was closed by this step and no later close touches it
                have huntouched : ∀ p ∈ (closeStep st s0).upvalues, p.2 ≠ c0 := by
                  intro p hp hpc
                  have hpin : p ∈ st.upvalues := hsub.subset hp
                  have hpe : p = (s0, c0) :=
                    List.inj_on_of_nodup_map hc hpin hm0 (by simpa using hpc)
                  rw [hpe, hupv] at hp
                  exact (not_mem_keys_uvErase_self hk)
                    (List.mem_map_of_mem Prod.fst hp)
                rw [hcid, closeSlots_cells_untouched rest (closeStep st s0) c0 huntouched,
                  hcells, hse]
                exact listGet?SetSelf _ _ _ (hlen _ hm0)
            · have hin' : slot ∈ rest := by
                rcases List.mem_cons.mp hin with h | h
                · exact absurd h hse
                · exact h
              have hm1 : (slot, cid) ∈ (closeStep st s0).upvalues := by
                rw [hupv]
                exact mem_uvErase_of_ne hm hse
              have := ihr.1 slot cid hm1 hin'
              rw [hstk] at this
              exact this
          · intro slot cid hm hnin
            have hse : slot ≠ s0 := fun h => hnin (h ▸ List.mem_cons_self s0 rest)
            have hnin' : slot ∉ rest := fun h => hnin (List.mem_cons_of_mem _ h)
            have hm1 : (slot, cid) ∈ (closeStep st s0).upvalues := by
              rw [hupv]
              exact mem_uvErase_of_ne hm hse
            have hres := ihr.2 slot cid hm1 hnin'
            refine ⟨hres.1, ?_⟩
            rw [hres.2, hcells]
            have hcne : cid ≠ c0 := by
              intro hcontra
              have : (slot, cid) = (s0, c0) :=
                List.inj_on_of_nodup_map hc hm hm0 (by simpa using hcontra)
              exact hse (by injection this)
            exact listGet?SetNe _ _ _ _ (fun h => hcne h.symm)

/-! ## C2 -/

/-- C2: the semantics of `Op::Return`.  With a single frame left, `Return`
terminates with `Done` (and `run()` returns `Done`).  With more frames and a
well-formed open-up-value map (distinct slots, distinct live cells, every
open slot strictly below the pre-pop top of stack), `Return` pops the top
value, stores it into stack slot `stack_offset` of the popped frame, closes
every open up-value whose slot is strictly greater than `stack_offset` with
the value currently at its slot, leaves the other open up-values and their
cells untouched, truncates the stack to `stack_offset + 1`, and returns
control to the caller frame. -/
theorem C2_return_semantics :
    (∀ (ext : List ExternFn) (fl : Nat) (st : VMState) (f : FrameV),
      st.frames = [f] →
      evalOp ext fl st .ret = .ok .doneR { st with frames := [] }) ∧
    (∀ (ext : List ExternFn) (fl n : Nat) (st : VMState) (f : FrameV) (blk : BlockV),
      st.frames = [f] → blockOfRef st.blocks f.block = some blk →
      blk.ops.get? f.ip = some .ret →
      runF ext fl (n + 1) st = .doneO) ∧
    (∀ (ext : List ExternFn) (fl : Nat) (st : VMState) (fs : List FrameV) (f : FrameV)
        (s : List Value) (top : Value),
      st.frames = fs ++ [f] → fs ≠ [] →
      st.stack = s ++ [top] →
      f.stackOffset < s.length →
      (st.upvalues.map Prod.fst).Nodup →
      (st.upvalues.map Prod.snd).Nodup →
      (∀ p ∈ st.upvalues, p.2 < st.cells.length) →
      (∀ p ∈ st.upvalues, p.1 < s.length) →
      ∃ st', evalOp ext fl st .ret = .ok .continueR st' ∧
        st'.frames = fs ∧
        st'.stack.length = f.stackOffset + 1 ∧
        st'.stack.get? f.stackOffset = some top ∧
        (∀ i, i < f.stackOffset → st'.stack.get? i = s.get? i) ∧
        (∀ slot cid, (slot, cid) ∈ st.upvalues → f.stackOffset < slot →
          uvLookup slot st'.upvalues = none ∧
          st'.cells.get? cid = some ⟨0, s.getD slot .nil⟩) ∧
        (∀ slot cid, (slot, cid) ∈ st.upvalues → slot ≤ f.stackOffset →
          (slot, cid) ∈ st'.upvalues ∧ st'.cells.get? cid = st.cells.get? cid)) := by
  refine ⟨?_, ?_, ?_⟩
  · intro ext fl st f hfr
    simp [evalOp, hfr]
  · intro ext fl n st f blk hfr hblk hop
    have hop' : blk.ops[f.ip]? = some UOp.ret := (List.get?_eq_getElem? _ _) ▸ hop
    simp [runF, fetchOp, hfr, hblk, hop', evalOp]
  · intro ext fl st fs f s top hfr hfs hstk hoff hk hc hclen hslot
    have hlast : st.frames.getLast? = some f := by
      rw [hfr]; exact List.getLast?_concat fs
    have hdrop : st.frames.dropLast = fs := by
      rw [hfr]; exact List.dropLast_concat
    set s2 : List Value := s.set f.stackOffset top with hs2
    have hs2len : s2.length = s.length := by simp [hs2]
    set mid : VMState := { st with stack := s2, frames := fs } with hmid
    set rng : List Nat :=
      List.range' (f.stackOffset + 1) (s2.length - (f.stackOffset + 1)) with hrng
    set st2 : VMState := closeSlots rng mid with hst2
    have hmidstack : st2.stack = s2 := by
      rw [hst2]; rw [closeSlots_stack]
    have hmidframes : st2.frames = fs := by
      rw [hst2]; rw [closeSlots_frames]
    have heval : evalOp ext fl st .ret
        = .ok .continueR { st2 with stack := st2.stack.take (f.stackOffset + 1) } := by
      simp only [evalOp, hlast, hdrop, isEmpty_false_of_ne_nil hfs, Bool.false_eq_true,
        if_false, hstk, popTop_append, if_pos hoff]
    have hspec := closeSlots_spec rng mid hk hc hclen
      (by rw [hrng]; exact List.nodup_range' _ _)
    refine ⟨{ st2 with stack := st2.stack.take (f.stackOffset + 1) }, heval, ?_, ?_, ?_, ?_, ?_, ?_⟩
    · simpa using hmidframes
    · rw [hmidstack]
      simp [hs2len]
      omega
    · rw [hmidstack, listGet?TakeLt s2 (f.stackOffset + 1) f.stackOffset (by omega), hs2]
      exact listGet?SetSelf s f.stackOffset top hoff
    · intro i hi
      rw [hmidstack, listGet?TakeLt s2 (f.stackOffset + 1) i (by omega), hs2]
      exact listGet?SetNe s f.stackOffset i top (by omega)
    · intro slot cid hm hgt
      have hslt : slot < s.length := hslot (slot, cid) hm
      have hin : slot ∈ rng := by
        rw [hrng]
        rw [List.mem_range'_1]
        omega
      have h1 := hspec.1 slot cid hm hin
      refine ⟨h1.1, ?_⟩
      have h2 := h1.2
      have : mid.stack.getD slot Value.nil = s.getD slot Value.nil := by
        show s2.getD slot Value.nil = s.getD slot Value.nil
        exact listGetDSetNe s f.stackOffset slot top Value.nil (by omega)
      rw [this] at h2
      exact h2
    · intro slot cid hm hle
      have hnin : slot ∉ rng := by
        rw [hrng]
        rw [List.mem_range'_1]
        omega
      exact hspec.2 slot cid hm hnin

/-- C2 (witness): the `Return` semantics at a concrete two-frame state with
one open up-value above the returning frame's offset. -/
theorem C2_return_semantics_witness :
    ∃ st', evalOp [] 1 c2State .ret = .ok .continueR st' ∧
      st'.frames = [⟨0, .id 0, 3⟩] ∧
      st'.stack.length = 2 ∧
      st'.stack.get? 1 = some (.int 9) ∧
      uvLookup 2 st'.upvalues = none ∧
      st'.cells.get? 0 = some ⟨0, .int 5⟩ := by
  obtain ⟨st', h1, h2, h3, h4, _, h6, _⟩ :=
    C2_return_semantics.2.2 [] 1 c2State [⟨0, .id 0, 3⟩] ⟨1, .id 1, 7⟩
      [.function [] (.id 0), .function [] (.id 1), .int 5] (.int 9)
      rfl (List.cons_ne_nil _ _) rfl (by decide) (by simp [c2State]) (by simp [c2State])
      (by intro p hp; simp [c2State] at hp; subst hp; simp [c2State])
      (by intro p hp; simp [c2State] at hp; subst hp; simp)
  have h7 := h6 2 0 (by simp [c2State]) (by simp)
  exact ⟨st', h1, h2, h3, h4, h7.1, h7.2⟩

/-! ## C1 -/

/-- C1 (code_bug): the source program `(1, 2)[2]` compiles with no errors and
typechecks with no errors (the typechecker sees only the exemplar `Int(1)`
as index), yet `VM::run` neither returns `Done`/`Yield` nor an error of the
four claimed kinds: `Op::Index` checks `v.len() < slot`, so the in-bounds
test lets `slot == len` through and the vector access `v[slot]` panics,
aborting the process. -/
theorem C1_typechecked_program_aborts :
    tcErrors (typecheckF [] 1 20 c1Prog) = some [] ∧
    runF [] 1 20 (initVM c1Prog) = .crashO := by
  refine ⟨?_, rfl⟩
  simp [typecheckF, tcBlocks, typecheckBlockF, tcLoop, fetchOp, checkOp, evalOp,
    identityStep, identityV, tyOfValue, tyEq, blockOfRef, c1Prog, c1MainBlock,
    popTop, pushV, mkErr, intToUsize, tcErrors, modifyIp, valueOfTy]

/-! ## C3 -/

/-- C3 (counterexample): the claim says a list with a valid integer index
evaluates to the element; the code's `Op::Index` only matches tuples, so
`[7][0]` raises `RuntimeTypeError` ("Cannot index type") instead of pushing
the element `7`. -/
theorem C3_index_list_counterexample :
    evalOp [] 1 (mkState [.list [.int 7], .int 0]) .index
      = .err (.runtimeTypeError .index [.list [.int 7], .int 0]) (mkState [.nil]) := rfl

/-- C3 (amended): `Op::Index` handles only tuples.  With a tuple and an
integer `i` (cast to `usize`, so negative `i` wraps to a huge index): an
index with an element behind it replaces the two operands by that element;
`i` equal to the length slips past the `v.len() < slot` check and panics on
the vector access (process abort); an index strictly beyond the length
raises `IndexOutOfBounds` — in particular every negative `i ≥ -2^63` does,
since its cast exceeds any real length.  A list operand (like any non-tuple)
raises `RuntimeTypeError`. -/
theorem C3_index_amended :
    (∀ (ext : List ExternFn) (fl : Nat) (st : VMState) (rest : List Value)
        (v : List Value) (i : Int),
      st.stack = rest ++ [.tuple v, .int i] → st.frames ≠ [] →
      (∀ x, v.get? (intToUsize i) = some x →
        evalOp ext fl st .index = .ok .continueR { st with stack := rest ++ [x] }) ∧
      (intToUsize i = v.length → evalOp ext fl st .index = .crash) ∧
      (v.length < intToUsize i →
        evalOp ext fl st .index
          = .err (.indexOutOfBounds (.tuple v) v.length (intToUsize i))
              { st with stack := rest ++ [.nil] }) ∧
      (i < 0 → -(2 ^ 63 : Int) ≤ i → v.length < 2 ^ 63 →
        evalOp ext fl st .index
          = .err (.indexOutOfBounds (.tuple v) v.length (intToUsize i))
              { st with stack := rest ++ [.nil] })) ∧
    (∀ (ext : List ExternFn) (fl : Nat) (st : VMState) (rest : List Value)
        (l : List Value) (i : Int),
      st.stack = rest ++ [.list l, .int i] → st.frames ≠ [] →
      evalOp ext fl st .index
        = .err (.runtimeTypeError .index [.list l, .int i])
            { st with stack := rest ++ [.nil] }) := by
  constructor
  · intro ext fl st rest v i hst hfr
    have hs : st.stack = (rest ++ [.tuple v]) ++ [.int i] := by
      simpa [List.append_assoc] using hst
    have hoob : v.length < intToUsize i →
        evalOp ext fl st .index
          = .err (.indexOutOfBounds (.tuple v) v.length (intToUsize i))
              { st with stack := rest ++ [.nil] } := by
      intro hlt
      simp only [evalOp, hs, popTop_append]
      simp [hlt, mkErr, isEmpty_false_of_ne_nil hfr]
    refine ⟨?_, ?_, hoob, ?_⟩
    · intro x hx
      have hlt : intToUsize i < v.length := by
        rcases List.get?_eq_some.mp hx with ⟨h, _⟩
        exact h
      have hx' : v[intToUsize i]? = some x := (List.get?_eq_getElem? v (intToUsize i)) ▸ hx
      simp only [evalOp, hs, popTop_append]
      simp [Nat.not_lt.mpr (Nat.le_of_lt hlt), hx']
    · intro heq
      have hnone : v[intToUsize i]? = none := by
        rw [← List.get?_eq_getElem?]
        exact List.get?_eq_none.mpr (by omega)
      simp only [evalOp, hs, popTop_append]
      simp [heq, hnone]
    · intro hneg hlo hlen
      refine hoob ?_
      have : (2 ^ 63 : Nat) ≤ intToUsize i := by
        unfold intToUsize
        omega
      omega
  · intro ext fl st rest l i hst hfr
    have hs : st.stack = (rest ++ [.list l]) ++ [.int i] := by
      simpa [List.append_assoc] using hst
    simp only [evalOp, hs, popTop_append]
    simp [mkErr, isEmpty_false_of_ne_nil hfr]

/-- C3 (witness): the amended theorem at `(7, 8)[1]` (valid index) and at
`(7, 8)[-1]` (negative index). -/
theorem C3_index_amended_witness :
    evalOp [] 1 (mkState [.tuple [.int 7, .int 8], .int 1]) .index
      = .ok .continueR (mkState [.int 8]) ∧
    evalOp [] 1 (mkState [.tuple [.int 7, .int 8], .int (-1)]) .index
      = .err (.indexOutOfBounds (.tuple [.int 7, .int 8]) 2 (intToUsize (-1)))
          (mkState [.nil]) := by
  constructor
  · exact (C3_index_amended.1 [] 1 (mkState [.tuple [.int 7, .int 8], .int 1]) []
      [.int 7, .int 8] 1 rfl (by simp [mkState])).1 (.int 8) rfl
  · exact (C3_index_amended.1 [] 1 (mkState [.tuple [.int 7, .int 8], .int (-1)]) []
      [.int 7, .int 8] (-1) rfl (by simp [mkState])).2.2.2 (by norm_num) (by norm_num)
      (by norm_num)

/-! ## C4 -/

/-- C4 (counterexample): executing `Assert` on the non-`Bool(true)` top value
`Int(7)` does not fail with `AssertFailed` (the code only checks for
`Bool(false)`), and the stack keeps its length (the code pushes `Bool(true)`
back), contradicting both the claimed iff and the claimed stack effect
`-1`. -/
theorem C4_assert_counterexample :
    evalOp [] 1 (mkState [.int 7]) .assert = .ok .continueR (mkState [.bool true]) ∧
    (mkState [.bool true]).stack.length = (mkState [.int 7]).stack.length :=
  ⟨rfl, rfl⟩

/-- C4 (amended): `Assert` pops the top value; it fails with `AssertFailed`
exactly when the popped value is `Bool(false)` (leaving the stack one
shorter), and otherwise pushes `Bool(true)`, so the successful stack effect
is `0`. -/
theorem C4_assert_amended (ext : List ExternFn) (fl : Nat) (st : VMState)
    (rest : List Value) (v : Value)
    (hst : st.stack = rest ++ [v]) (hfr : st.frames ≠ []) :
    (v = .bool false →
        evalOp ext fl st .assert = .err .assertFailed { st with stack := rest }) ∧
    (v ≠ .bool false →
        evalOp ext fl st .assert = .ok .continueR { st with stack := rest ++ [.bool true] }) := by
  constructor
  · rintro rfl
    simp [evalOp, hst, popTop_append, mkErr, isEmpty_false_of_ne_nil hfr]
  · intro hv
    simp only [evalOp, hst, popTop_append]

/-- C4 (witness): the amended theorem applied to `Bool(false)` on top of a
one-value stack. -/
theorem C4_assert_amended_witness :
    evalOp [] 1 (mkState [.bool false]) .assert
      = .err .assertFailed (mkState []) :=
  (C4_assert_amended [] 1 (mkState [.bool false]) [] (.bool false) rfl
      (by simp [mkState])).1 rfl

/-! ## C5 -/

/-- C5 (counterexample): `op::add(Unknown, Int(1))` substitutes the concrete
operand for the unknown one and returns `Int(2)`, not `Unknown` as the claim
demands. -/
theorem C5_unknown_operand_counterexample :
    addF 2 .unknown (.int 1) = some (.int 2) ∧ Value.int 2 ≠ Value.unknown := by
  refine ⟨?_, fun h => Value.noConfusion h⟩
  show addF 1 (.int 1) (.int 1) = some (.int 2)
  simp [addF, wrap64]

/-- C5 (amended): the operator functions return `Unknown` only when both
operands are `Unknown`; a single `Unknown` operand is replaced by the other
operand, so `add`/`mul`/`div` compute the operator at `(v, v)` (for `sub`,
which is `add` after negation, `sub(Unknown, Int i)` is `(-i) + (-i)`).  The
`n + 1`/`n + 2` fuel offsets position the recursion depth of the source's
self-calls. -/
theorem C5_unknown_operand_amended :
    (∀ n : Nat,
        addF (n + 1) .unknown .unknown = some .unknown ∧
        mulF (n + 1) .unknown .unknown = some .unknown ∧
        divF (n + 1) .unknown .unknown = some .unknown ∧
        subF (n + 1) .unknown .unknown = addF (n + 1) .unknown .unknown) ∧
    (∀ (n : Nat) (v : Value), v ≠ .unknown →
        addF (n + 1) .unknown v = addF n v v ∧
        addF (n + 1) v .unknown = addF n v v ∧
        mulF (n + 1) .unknown v = mulF n v v ∧
        mulF (n + 1) v .unknown = mulF n v v ∧
        divF (n + 1) .unknown v = divF n v v ∧
        divF (n + 1) v .unknown = divF n v v) ∧
    (∀ (n : Nat) (i : Int),
        addF (n + 2) .unknown (.int i) = some (.int (wrap64 (i + i))) ∧
        mulF (n + 2) .unknown (.int i) = some (.int (wrap64 (i * i))) ∧
        subF (n + 2) .unknown (.int i)
          = some (.int (wrap64 (wrap64 (-i) + wrap64 (-i))))) := by
  refine ⟨fun n => ⟨rfl, rfl, rfl, ?_⟩, fun n v hv => ?_, fun n i => ⟨rfl, rfl, ?_⟩⟩
  · show addF (n + 1) .unknown (opNeg .unknown) = _
    simp [opNeg]
  · cases v with
    | unknown => exact absurd rfl hv
    | ty t => exact ⟨rfl, rfl, rfl, rfl, rfl, rfl⟩
    | blob k => exact ⟨rfl, rfl, rfl, rfl, rfl, rfl⟩
    | blobInstance k vs => exact ⟨rfl, rfl, rfl, rfl, rfl, rfl⟩
    | tuple vs => exact ⟨rfl, rfl, rfl, rfl, rfl, rfl⟩
    | list vs => exact ⟨rfl, rfl, rfl, rfl, rfl, rfl⟩
    | union vs => exact ⟨rfl, rfl, rfl, rfl, rfl, rfl⟩
    | float x => exact ⟨rfl, rfl, rfl, rfl, rfl, rfl⟩
    | int k => exact ⟨rfl, rfl, rfl, rfl, rfl, rfl⟩
    | bool b => exact ⟨rfl, rfl, rfl, rfl, rfl, rfl⟩
    | string s => exact ⟨rfl, rfl, rfl, rfl, rfl, rfl⟩
    | function u r => exact ⟨rfl, rfl, rfl, rfl, rfl, rfl⟩
    | externFunction k => exact ⟨rfl, rfl, rfl, rfl, rfl, rfl⟩
    | nil => exact ⟨rfl, rfl, rfl, rfl, rfl, rfl⟩
  · show addF (n + 2) .unknown (opNeg (.int i)) = _
    simp only [opNeg]
    rfl

/-- C5 (witness): the amended theorem applied at `v = Int 1` (and the `n = 0`
fuel). -/
theorem C5_unknown_operand_amended_witness :
    addF 1 .unknown (.int 1) = addF 0 (.int 1) (.int 1) :=
  (C5_unknown_operand_amended.2.1 0 (.int 1) (fun h => Value.noConfusion h)).1

/-! ## C7 -/

/-- C7 (code_bug): with one error recorded before the speculation, a failed
first alternative computes `split_off(errors.len() - num_errors - 1)` =
`split_off(0)`, which moves the pre-existing error (not just the
alternative's own error) into `stored_errors`; when the second alternative
then succeeds the stored errors are discarded, so the pre-existing error is
lost and the error list is not restored to its snapshot — contradicting the
claim that errors recorded before the speculation are preserved.  (The
cursor and op count are rewound as claimed: the final state shows the
successful alternative applied to the rewound state.) -/
theorem C7_parse_branch_drops_prior_errors :
    parseBranch [c7FailAlt, c7OkAlt] c7Start
      = .out true { curr := 7, ops := [.nop, .add], errors := [], panic := false } ∧
    c7Start.errors = [c7PreError] :=
  ⟨rfl, rfl⟩

/-! ## C8 and C9 counterexamples -/

/-- C8 (counterexample): on tuples, `op::less` is the pointwise conjunction
of componentwise `less`, not the lexicographic order: `(0, 5) < (1, 3)` is
lexicographically true (first components decide) but the code returns
`Bool(false)` because the second components are not less. -/
theorem C8_less_tuple_counterexample :
    lessF 2 (.tuple [.int 0, .int 5]) (.tuple [.int 1, .int 3]) = some (.bool false) ∧
    lexLessSpec 1 [.int 0, .int 5] [.int 1, .int 3] = some (.bool true) :=
  ⟨rfl, rfl⟩

/-- C9 (counterexample): `fits` is not reflexive on all types: for
`T = Tuple([Unknown])` the comparison falls through to `Type::eq`, whose
match has no `(Unknown, Unknown)` arm, so `T fits T` is false. -/
theorem C9_fits_not_reflexive_counterexample :
    fits (.tuple [.unknown]) (.tuple [.unknown]) = false := by
  simp [fits, tyEq, tyZipAll]

/-! ## C9 amended: reflexivity of `fits` on hereditarily concrete types -/

theorem tyAnyEq_mem {x b : Ty} :
    ∀ {s : List Ty}, x ∈ s → tyEq x b = true → tyAnyEq s b = true := by
  intro s
  induction s with
  | nil => intro hx _; exact absurd hx (List.not_mem_nil x)
  | cons a t ih =>
      intro hx h
      simp only [tyAnyEq, Bool.or_eq_true]
      rcases List.mem_cons.mp hx with he | ht
      · exact Or.inl (he ▸ h)
      · exact Or.inr (ih ht h)

theorem tyAnyEq_of_memVia {z : Ty} :
    ∀ {s : List Ty}, MemVia z s → tyEq z z = true → tyAnyEq s z = true := by
  intro s hm
  induction hm with
  | base hmem => intro h; exact tyAnyEq_mem hmem h
  | step hu _ ih =>
      intro h
      refine tyAnyEq_mem hu ?_
      show tyEq (.union _) z = true
      simp only [tyEq]
      exact ih h

theorem tyAnyEq_union_of_memVia {z : Ty} {a : List Ty} :
    ∀ {s : List Ty}, MemVia z s → tyEq z (.union a) = true →
      tyAnyEq s (.union a) = true := by
  intro s hm
  induction hm with
  | base hmem => intro h; exact tyAnyEq_mem hmem h
  | step hu _ ih =>
      intro h
      refine tyAnyEq_mem hu ?_
      show tyEq (.union _) (.union a) = true
      simp only [tyEq]
      exact ih h

theorem memVia_sizeOf {z : Ty} : ∀ {s : List Ty}, MemVia z s → sizeOf z < sizeOf s := by
  intro s hm
  induction hm with
  | base hmem => exact List.sizeOf_lt_of_mem hmem
  | step hu _ ih =>
      have h1 := List.sizeOf_lt_of_mem hu
      simp only [Ty.union.sizeOf_spec] at h1
      omega

theorem concreteTy_of_mem {x : Ty} :
    ∀ {s : List Ty}, concreteTys s = true → x ∈ s → concreteTy x = true := by
  intro s
  induction s with
  | nil => intro _ hx; exact absurd hx (List.not_mem_nil x)
  | cons a t ih =>
      intro hc hx
      simp only [concreteTys, Bool.and_eq_true] at hc
      rcases List.mem_cons.mp hx with he | ht
      · exact he ▸ hc.1
      · exact ih hc.2 ht

theorem exists_concrete_nonUnion :
    ∀ (n : Nat) (s : List Ty), sizeOf s ≤ n → s ≠ [] → concreteTys s = true →
      ∃ z, MemVia z s ∧ z.isUnionTy = false ∧ concreteTy z = true := by
  intro n
  induction n with
  | zero =>
      intro s hs hne _
      cases s with
      | nil => exact absurd rfl hne
      | cons a t => simp only [List.cons.sizeOf_spec] at hs; omega
  | succ n ih =>
      intro s hs hne hc
      cases s with
      | nil => exact absurd rfl hne
      | cons a t =>
          simp only [concreteTys, Bool.and_eq_true] at hc
          cases hau : a.isUnionTy with
          | false => exact ⟨a, MemVia.base (List.mem_cons_self a t), hau, hc.1⟩
          | true =>
              obtain ⟨u, rfl⟩ : ∃ u, a = Ty.union u := by
                cases a <;> first
                  | exact ⟨_, rfl⟩
                  | simp [Ty.isUnionTy] at hau
              have hcu := hc.1
              simp only [concreteTy, Bool.and_eq_true] at hcu
              have hu_ne : u ≠ [] := by
                intro h; rw [h] at hcu; simp at hcu
              have hsz : sizeOf u ≤ n := by
                simp only [List.cons.sizeOf_spec, Ty.union.sizeOf_spec] at hs
                omega
              obtain ⟨z, hm, hnu, hcz⟩ := ih u hsz hu_ne hcu.2
              exact ⟨z, MemVia.step (List.mem_cons_self _ _) hm, hnu, hcz⟩

theorem tyZipAll_self :
    ∀ {l : List Ty}, (∀ x ∈ l, tyEq x x = true) → tyZipAll l l = true := by
  intro l
  induction l with
  | nil => intro _; simp [tyZipAll]
  | cons a t ih =>
      intro h
      simp only [tyZipAll, Bool.and_eq_true]
      exact ⟨h a (List.mem_cons_self a t), ih fun x hx => h x (List.mem_cons_of_mem a hx)⟩

theorem tyVecEq_self :
    ∀ {l : List Ty}, (∀ x ∈ l, tyEq x x = true) → tyVecEq l l = true := by
  intro l
  induction l with
  | nil => intro _; simp [tyVecEq]
  | cons a t ih =>
      intro h
      simp only [tyVecEq, Bool.and_eq_true]
      exact ⟨h a (List.mem_cons_self a t), ih fun x hx => h x (List.mem_cons_of_mem a hx)⟩

theorem tyEq_refl_concrete_aux :
    ∀ (n : Nat) (t : Ty), sizeOf t ≤ n → concreteTy t = true → tyEq t t = true := by
  intro n
  induction n with
  | zero =>
      intro t hs _
      exfalso
      cases t <;> (simp at hs; try omega)
  | succ n ih =>
      intro t hs hc
      cases t with
      | void => simp [tyEq]
      | unknown => simp [concreteTy] at hc
      | int => simp [tyEq]
      | float => simp [tyEq]
      | bool => simp [tyEq]
      | string => simp [tyEq]
      | blob b => simp [tyEq]
      | instanceT b => simp [tyEq]
      | tuple ts =>
          simp only [concreteTy] at hc
          simp only [tyEq]
          apply tyZipAll_self
          intro x hx
          have h1 := List.sizeOf_lt_of_mem hx
          have hsx : sizeOf x ≤ n := by
            simp only [Ty.tuple.sizeOf_spec] at hs
            omega
          exact ih x hsx (concreteTy_of_mem hc hx)
      | list a =>
          simp only [concreteTy] at hc
          simp only [tyEq]
          have hsa : sizeOf a ≤ n := by
            simp only [Ty.list.sizeOf_spec] at hs
            omega
          exact ih a hsa hc
      | function args ret =>
          simp only [concreteTy, Bool.and_eq_true] at hc
          simp only [tyEq, Bool.and_eq_true]
          refine ⟨tyVecEq_self ?_, ?_⟩
          · intro x hx
            have h1 := List.sizeOf_lt_of_mem hx
            have hsx : sizeOf x ≤ n := by
              simp only [Ty.function.sizeOf_spec] at hs
              omega
            exact ih x hsx (concreteTy_of_mem hc.1 hx)
          · have hsr : sizeOf ret ≤ n := by
              simp only [Ty.function.sizeOf_spec] at hs
              omega
            exact ih ret hsr hc.2
      | union s =>
          simp only [concreteTy, Bool.and_eq_true] at hc
          have hne : s ≠ [] := by
            intro h; rw [h] at hc; simp at hc
          have hss : sizeOf s ≤ n := by
            simp only [Ty.union.sizeOf_spec] at hs
            omega
          obtain ⟨z, hm, hnu, hcz⟩ :=
            exists_concrete_nonUnion (sizeOf s) s le_rfl hne hc.2
          have hzs : sizeOf z ≤ n := by
            have := memVia_sizeOf hm
            omega
          have hzz : tyEq z z = true := ih z hzs hcz
          have h1 : tyAnyEq s z = true := tyAnyEq_of_memVia hm hzz
          have hza : tyEq z (Ty.union s) = true := by
            cases z <;> first
              | (simp only [tyEq]; exact h1)
              | simp [Ty.isUnionTy] at hnu
          have h2 : tyAnyEq s (Ty.union s) = true := tyAnyEq_union_of_memVia hm hza
          simp only [tyEq]
          exact h2

theorem tyEq_refl_concrete (t : Ty) (h : concreteTy t = true) : tyEq t t = true :=
  tyEq_refl_concrete_aux (sizeOf t) t le_rfl h

theorem fits_refl_concrete_aux :
    ∀ (n : Nat) (t : Ty), sizeOf t ≤ n → concreteTy t = true → fits t t = true := by
  intro n
  induction n with
  | zero =>
      intro t hs _
      exfalso
      cases t <;> (simp at hs; try omega)
  | succ n ih =>
      intro t hs hc
      cases t with
      | unknown => simp [fits]
      | list a =>
          simp only [concreteTy] at hc
          simp only [fits]
          have hsa : sizeOf a ≤ n := by
            simp only [Ty.list.sizeOf_spec] at hs
            omega
          exact ih a hsa hc
      | union s =>
          simp only [concreteTy, Bool.and_eq_true] at hc
          simp only [fits]
          rw [List.all_eq_true]
          intro x hx
          simp only [tyContains]
          rw [List.any_eq_true]
          exact ⟨x, hx, tyEq_refl_concrete x (concreteTy_of_mem hc.2 hx)⟩
      | void => simp only [fits]; exact tyEq_refl_concrete _ hc
      | int => simp only [fits]; exact tyEq_refl_concrete _ hc
      | float => simp only [fits]; exact tyEq_refl_concrete _ hc
      | bool => simp only [fits]; exact tyEq_refl_concrete _ hc
      | string => simp only [fits]; exact tyEq_refl_concrete _ hc
      | tuple ts => simp only [fits]; exact tyEq_refl_concrete _ hc
      | function args ret => simp only [fits]; exact tyEq_refl_concrete _ hc
      | blob b => simp only [fits]; exact tyEq_refl_concrete _ hc
      | instanceT b => simp only [fits]; exact tyEq_refl_concrete _ hc

/-- C9 (amended): `T fits Unknown` holds for every type `T`, and `fits` is
reflexive on the hereditarily concrete types — those containing no
`Unknown` and no empty `Union` anywhere; on such a type the comparison
bottoms out in `Type::eq`, which is reflexive there.  Full reflexivity
fails (see the `Tuple([Unknown])` counterexample). -/
theorem C9_fits_amended :
    (∀ t : Ty, fits t .unknown = true) ∧
    (∀ t : Ty, concreteTy t = true → fits t t = true) := by
  constructor
  · intro t; cases t <;> simp [fits]
  · intro t hc; exact fits_refl_concrete_aux (sizeOf t) t le_rfl hc

/-- C9 (witness): the amended reflexivity at the concrete type
`Union({Int, Tuple([Bool])})`. -/
theorem C9_fits_amended_witness :
    concreteTy (.union [.int, .tuple [.bool]]) = true ∧
    fits (.union [.int, .tuple [.bool]]) (.union [.int, .tuple [.bool]]) = true :=
  ⟨by simp [concreteTy, concreteTys],
   C9_fits_amended.2 _ (by simp [concreteTy, concreteTys])⟩

/-! ## C8 amended: what order `op::less` actually computes -/

theorem char_toNat_inj {a b : Char} (h : a.toNat = b.toNat) : a = b := by
  have ha := Char.ofNat_toNat a
  have hb := Char.ofNat_toNat b
  rw [← ha, ← hb, h]

theorem strLt_irrefl : ∀ s : List Char, strLt s s = false := by
  intro s
  induction s with
  | nil => rfl
  | cons a t ih => simp [strLt, ih]

theorem strLt_asymm : ∀ s t : List Char, strLt s t = true → strLt t s = false := by
  intro s
  induction s with
  | nil =>
      intro t h
      cases t with
      | nil => rfl
      | cons b u => rfl
  | cons a x ih =>
      intro t h
      cases t with
      | nil => simp [strLt] at h
      | cons b u =>
          simp only [strLt] at h ⊢
          by_cases h1 : a.toNat < b.toNat
          · rw [if_neg (by omega), if_pos h1]
          · by_cases h2 : b.toNat < a.toNat
            · rw [if_neg h1, if_pos h2] at h
              simp at h
            · rw [if_neg h1, if_neg h2] at h
              rw [if_neg h2, if_neg h1]
              exact ih u h

theorem strLt_total : ∀ s t : List Char, s ≠ t → strLt s t = true ∨ strLt t s = true := by
  intro s
  induction s with
  | nil =>
      intro t hne
      cases t with
      | nil => exact absurd rfl hne
      | cons b u => exact Or.inl rfl
  | cons a x ih =>
      intro t hne
      cases t with
      | nil => exact Or.inr rfl
      | cons b u =>
          by_cases h1 : a.toNat < b.toNat
          · exact Or.inl (by simp only [strLt]; rw [if_pos h1])
          · by_cases h2 : b.toNat < a.toNat
            · exact Or.inr (by simp only [strLt]; rw [if_pos h2])
            · have hab : a = b := char_toNat_inj (by omega)
              subst hab
              have hxu : x ≠ u := fun h => hne (by rw [h])
              rcases ih u hxu with h | h
              · refine Or.inl ?_
                simp only [strLt]
                rw [if_neg (lt_irrefl _), if_neg (lt_irrefl _)]
                exact h
              · refine Or.inr ?_
                simp only [strLt]
                rw [if_neg (lt_irrefl _), if_neg (lt_irrefl _)]
                exact h

theorem fltLt_irrefl : ∀ a : FloatV, fltLt a a = false := by
  intro a
  cases a <;> simp [fltLt]

theorem fltLt_asymm : ∀ a b : FloatV, fltLt a b = true → fltLt b a = false := by
  intro a b
  cases a with
  | finite q =>
      cases b with
      | finite r =>
          intro h
          simp only [fltLt, decide_eq_true_eq] at h
          simp only [fltLt, decide_eq_false_iff_not]
          exact lt_asymm h
      | posInf => intro _; rfl
      | negInf => intro h; simp [fltLt] at h
      | nan => intro h; simp [fltLt] at h
  | posInf => intro h; cases b <;> simp [fltLt] at h
  | negInf =>
      cases b with
      | finite r => intro _; rfl
      | posInf => intro _; rfl
      | negInf => intro h; simp [fltLt] at h
      | nan => intro h; simp [fltLt] at h
  | nan => intro h; cases b <;> simp [fltLt] at h

theorem fltLt_total : ∀ a b : FloatV, a ≠ .nan → b ≠ .nan → a ≠ b →
    fltLt a b = true ∨ fltLt b a = true := by
  intro a b ha hb hne
  cases a with
  | nan => exact absurd rfl ha
  | posInf =>
      cases b with
      | nan => exact absurd rfl hb
      | posInf => exact absurd rfl hne
      | negInf => exact Or.inr rfl
      | finite r => exact Or.inr rfl
  | negInf =>
      cases b with
      | nan => exact absurd rfl hb
      | negInf => exact absurd rfl hne
      | posInf => exact Or.inl rfl
      | finite r => exact Or.inl rfl
  | finite q =>
      cases b with
      | nan => exact absurd rfl hb
      | posInf => exact Or.inl rfl
      | negInf => exact Or.inr rfl
      | finite r =>
          have hqr : q ≠ r := fun h => hne (by rw [h])
          rcases lt_or_gt_of_ne hqr with h | h
          · exact Or.inl (by simp [fltLt, h])
          · exact Or.inr (by simp [fltLt, h])

theorem lessSeqF_all (f : Value → Value → Option Value) :
    ∀ (xs ys : List Value), xs.length = ys.length →
      (∀ p ∈ xs.zip ys, ∃ b : Bool, f p.1 p.2 = some (.bool b)) →
      (lessSeqF f xs ys = some (.bool true) ↔
        ∀ p ∈ xs.zip ys, f p.1 p.2 = some (.bool true)) := by
  intro xs
  induction xs with
  | nil =>
      intro ys hlen _
      cases ys with
      | nil => simp [lessSeqF]
      | cons b u => simp at hlen
  | cons a t ih =>
      intro ys hlen hb
      cases ys with
      | nil => simp at hlen
      | cons b u =>
          obtain ⟨c, hc⟩ := hb (a, b) (by simp)
          cases c with
          | true =>
              have hred : lessSeqF f (a :: t) (b :: u) = lessSeqF f t u := by
                simp only [lessSeqF, hc]
              have hlen' : t.length = u.length := by simpa using hlen
              have hb' : ∀ p ∈ t.zip u, ∃ d : Bool, f p.1 p.2 = some (.bool d) :=
                fun p hp => hb p (by simp [hp])
              rw [hred, ih u hlen' hb']
              constructor
              · intro h p hp
                have hp' : p = (a, b) ∨ p ∈ t.zip u := by
                  have h2 := hp
                  rw [List.zip_cons_cons] at h2
                  exact List.mem_cons.mp h2
                rcases hp' with he | ht'
                · rw [he]; exact hc
                · exact h p ht'
              · intro h p hp
                exact h p (by simp [hp])
          | false =>
              have hred : lessSeqF f (a :: t) (b :: u) = some (.bool false) := by
                simp only [lessSeqF, hc]
              rw [hred]
              constructor
              · intro h; simp at h
              · intro h
                have h2 := h (a, b) (by simp)
                rw [hc] at h2
                simp at h2

/-- C8 (amended): `op::less` on scalar pairs decides: `<` on Ints (a strict
total order), `false < true` on Bools, the byte-lexicographic `strLt` on
Strings (irreflexive, asymmetric and total), and IEEE `<` on Floats —
which is irreflexive and asymmetric but total only away from NaN, NaN
being incomparable with everything.  On equal-length tuples whose
components compare to booleans the result is `Bool(true)` iff every
componentwise comparison is true: the pointwise conjunction, not the
lexicographic order. -/
theorem C8_less_amended :
    (∀ x y : Int, lessF 1 (.int x) (.int y) = some (.bool (decide (x < y)))) ∧
    (∀ x y : Bool, lessF 1 (.bool x) (.bool y) = some (.bool (!x && y))) ∧
    (∀ a b : FloatV, lessF 1 (.float a) (.float b) = some (.bool (fltLt a b))) ∧
    (∀ s t : List Char, lessF 1 (.string s) (.string t) = some (.bool (strLt s t))) ∧
    (∀ s : List Char, strLt s s = false) ∧
    (∀ s t : List Char, strLt s t = true → strLt t s = false) ∧
    (∀ s t : List Char, s ≠ t → strLt s t = true ∨ strLt t s = true) ∧
    (∀ a : FloatV, fltLt a a = false) ∧
    (∀ a b : FloatV, fltLt a b = true → fltLt b a = false) ∧
    (∀ a b : FloatV, a ≠ .nan → b ≠ .nan → a ≠ b →
        fltLt a b = true ∨ fltLt b a = true) ∧
    (fltLt .nan (.finite 0) = false ∧ fltLt (.finite 0) .nan = false) ∧
    (∀ (n : Nat) (xs ys : List Value), xs.length = ys.length →
      (∀ p ∈ xs.zip ys, ∃ b : Bool, lessF n p.1 p.2 = some (.bool b)) →
      (lessF (n + 1) (.tuple xs) (.tuple ys) = some (.bool true) ↔
        ∀ p ∈ xs.zip ys, lessF n p.1 p.2 = some (.bool true))) := by
  refine ⟨fun x y => rfl, fun x y => rfl, fun a b => rfl, fun s t => rfl,
    strLt_irrefl, strLt_asymm, strLt_total, fltLt_irrefl, fltLt_asymm,
    fltLt_total, ⟨rfl, rfl⟩, ?_⟩
  intro n xs ys hlen hb
  have hred : lessF (n + 1) (.tuple xs) (.tuple ys) = lessSeqF (lessF n) xs ys := by
    simp only [lessF]
    rw [if_pos hlen]
  rw [hred]
  exact lessSeqF_all (lessF n) xs ys hlen hb

/-- C8 (witness): the amended theorem at concrete inputs — string totality
between "a" and "b", and the pointwise tuple characterization at
`(0, 5)` vs `(1, 3)`. -/
theorem C8_less_amended_witness :
    (strLt "a".toList "b".toList = true ∨ strLt "b".toList "a".toList = true) ∧
    (lessF 2 (.tuple [.int 0, .int 5]) (.tuple [.int 1, .int 3]) = some (.bool true) ↔
      ∀ p ∈ ([Value.int 0, Value.int 5].zip [Value.int 1, Value.int 3]),
        lessF 1 p.1 p.2 = some (.bool true)) := by
  refine ⟨C8_less_amended.2.2.2.2.2.2.1 _ _ (by decide), ?_⟩
  refine C8_less_amended.2.2.2.2.2.2.2.2.2.2.2 1 _ _ rfl ?_
  intro p hp
  simp at hp
  rcases hp with h | h <;> rw [h] <;> exact ⟨_, rfl⟩

/-! ## C6 amended -/

theorem getLast?_some_of_ne_nil {α : Type} :
    ∀ {l : List α}, l ≠ [] → ∃ a, l.getLast? = some a
  | [], h => absurd rfl h
  | [a], _ => ⟨a, rfl⟩
  | _ :: b :: t, _ =>
      let ⟨c, hc⟩ := getLast?_some_of_ne_nil (l := b :: t) (by simp)
      ⟨c, hc⟩

theorem findAndCapture_length (name : String) : ∀ (l : List CFrame),
    ((findAndCapture name l).2).length = l.length := by
  intro l
  induction l with
  | nil => rfl
  | cons f rest ih =>
      unfold findAndCapture
      cases f.findLocal name with
      | some res => simp
      | none =>
          cases f.findUpvalue name with
          | some res => simp
          | none =>
              rcases hfc : findAndCapture name rest with ⟨res, rest'⟩
              rw [hfc] at ih
              cases res with
              | some r => simpa using ih
              | none => simpa using ih

theorem findVariable_preserves (name : String) (st : CState) :
    (findVariable name st).2.errors = st.errors ∧
    (findVariable name st).2.panic = st.panic ∧
    (findVariable name st).2.frames.length = st.frames.length := by
  unfold findVariable
  split
  · exact ⟨rfl, rfl, rfl⟩
  · split
    · exact ⟨rfl, rfl, rfl⟩
    · split
      · exact ⟨rfl, rfl, rfl⟩
      · refine ⟨rfl, rfl, ?_⟩
        show ((findAndCapture name st.frames.reverse).2.reverse).length
            = st.frames.length
        rw [List.length_reverse, findAndCapture_length, List.length_reverse]

/-- C6 (amended): `define_variable` compares only scope-depth numbers, not
frames.  After name resolution (which may capture through enclosing
function frames but records no errors), the declaration is rejected with a
"Multiple definitions" error exactly when the resolved variable's recorded
`scope` equals the current frame's scope counter — even when that variable
lives in an enclosing function's frame; when the resolved variable's scope
differs, or nothing is found, the declaration succeeds, appends a new
inactive mutable variable with the declared name at the current scope and
the next slot, and records nothing. -/
theorem C6_define_variable_amended (name : String) (typ : Ty) (st : CState)
    (hfr : st.frames ≠ []) (hp : st.panic = false) :
    ((findVariable name st).2.errors = st.errors ∧
     (findVariable name st).2.panic = false) ∧
    (∀ v, (findVariable name st).1 = some v →
        v.scope = (((findVariable name st).2.frames.getLast?).map CFrame.scope).getD 0 →
        (defineVariable name typ st).1 = .error () ∧
        (defineVariable name typ st).2.errors
          = st.errors ++ [.syntaxError "Multiple definitions in this block."]) ∧
    (∀ v, (findVariable name st).1 = some v →
        v.scope ≠ (((findVariable name st).2.frames.getLast?).map CFrame.scope).getD 0 →
        ∃ cur, (findVariable name st).2.frames.getLast? = some cur ∧
          (defineVariable name typ st).1 = .ok cur.stack.length ∧
          (defineVariable name typ st).2.errors = st.errors ∧
          (defineVariable name typ st).2.frames
            = (findVariable name st).2.frames.dropLast
              ++ [{ cur with stack := cur.stack ++
                  [{ name := name, typ := typ, scope := cur.scope,
                     slot := cur.stack.length, outerSlot := 0, outerUpvalue := false,
                     active := false, upvalue := false, captured := false,
                     mutable := true }] }]) ∧
    ((findVariable name st).1 = none →
        ∃ cur, (findVariable name st).2.frames.getLast? = some cur ∧
          (defineVariable name typ st).1 = .ok cur.stack.length ∧
          (defineVariable name typ st).2.errors = st.errors ∧
          (defineVariable name typ st).2.frames
            = (findVariable name st).2.frames.dropLast
              ++ [{ cur with stack := cur.stack ++
                  [{ name := name, typ := typ, scope := cur.scope,
                     slot := cur.stack.length, outerSlot := 0, outerUpvalue := false,
                     active := false, upvalue := false, captured := false,
                     mutable := true }] }]) := by
  obtain ⟨hperr, hppanic, hplen⟩ := findVariable_preserves name st
  have hpfr : (findVariable name st).2.frames ≠ [] := by
    intro hcontra
    rw [hcontra] at hplen
    cases hfr' : st.frames with
    | nil => exact hfr hfr'
    | cons a t => rw [hfr'] at hplen; simp at hplen
  obtain ⟨cur, hcur⟩ := getLast?_some_of_ne_nil hpfr
  have hsucc : ∃ cur', (findVariable name st).2.frames.getLast? = some cur' ∧
      pushNewVar name typ (findVariable name st).2
        = (.ok cur'.stack.length,
           { (findVariable name st).2 with
             frames := (findVariable name st).2.frames.dropLast
               ++ [{ cur' with stack := cur'.stack ++
                   [{ name := name, typ := typ, scope := cur'.scope,
                      slot := cur'.stack.length, outerSlot := 0, outerUpvalue := false,
                      active := false, upvalue := false, captured := false,
                      mutable := true }] }] }) := by
    refine ⟨cur, hcur, ?_⟩
    unfold pushNewVar
    rw [hcur]
  refine ⟨⟨hperr, hppanic.trans hp⟩, ?_, ?_, ?_⟩
  · intro v hv hscope
    have : defineVariable name typ st
        = (.error (), errorC (findVariable name st).2
            (.syntaxError "Multiple definitions in this block.")) := by
      simp only [defineVariable, hv]
      rw [if_pos hscope]
    rw [this]
    have hpanic2 : (findVariable name st).2.panic = false := hppanic.trans hp
    constructor
    · rfl
    · show (errorC _ _).errors = _
      unfold errorC
      rw [hpanic2]
      simp [hperr]
  · intro v hv hscope
    obtain ⟨cur', hcur', hpush⟩ := hsucc
    have : defineVariable name typ st = pushNewVar name typ (findVariable name st).2 := by
      simp only [defineVariable, hv]
      rw [if_neg hscope]
    rw [this, hpush]
    exact ⟨cur', hcur', rfl, hperr, rfl⟩
  · intro hv
    obtain ⟨cur', hcur', hpush⟩ := hsucc
    have : defineVariable name typ st = pushNewVar name typ (findVariable name st).2 := by
      simp only [defineVariable, hv]
    rw [this, hpush]
    exact ⟨cur', hcur', rfl, hperr, rfl⟩

/-- C6 (witness): the amended theorem at a state whose current frame holds
an active `x` declared at scope depth 0 while the current depth is 1 —
shadowing an outer scope of the same frame succeeds. -/
theorem C6_define_variable_amended_witness :
    (defineVariable "x" Ty.unknown
      { frames := [⟨[{ name := "x", typ := .unknown, scope := 0, slot := 0,
                       outerSlot := 0, outerUpvalue := false, active := true,
                       upvalue := false, captured := false, mutable := true }], [], 1⟩],
        panic := false, errors := [] }).1 = .ok 1 ∧
    (defineVariable "x" Ty.unknown
      { frames := [⟨[{ name := "x", typ := .unknown, scope := 0, slot := 0,
                       outerSlot := 0, outerUpvalue := false, active := true,
                       upvalue := false, captured := false, mutable := true }], [], 1⟩],
        panic := false, errors := [] }).2.errors = [] := by
  obtain ⟨cur, hcur, hok, herr, _⟩ :=
    (C6_define_variable_amended "x" Ty.unknown
      { frames := [⟨[{ name := "x", typ := .unknown, scope := 0, slot := 0,
                       outerSlot := 0, outerUpvalue := false, active := true,
                       upvalue := false, captured := false, mutable := true }], [], 1⟩],
        panic := false, errors := [] }
      (List.cons_ne_nil _ _) rfl).2.2.1
      { name := "x", typ := .unknown, scope := 0, slot := 0,
        outerSlot := 0, outerUpvalue := false, active := true,
        upvalue := false, captured := false, mutable := true }
      rfl (by simp [findVariable, CFrame.findLocal, findFirst])
  have hc : cur = ⟨[{ name := "x", typ := .unknown, scope := 0, slot := 0,
                      outerSlot := 0, outerUpvalue := false, active := true,
                      upvalue := false, captured := false, mutable := true }], [], 1⟩ := by
    have := hcur
    simp [findVariable, CFrame.findLocal, findFirst] at this
    exact this.symm
  rw [hc] at hok
  exact ⟨hok, herr⟩

/-! ## C10 -/

theorem eqF_cross_kind_nil (n : Nat) (a b : Value)
    (hk : a.kindIdx ≠ b.kindIdx)
    (ha : a.isUnknown = false) (hb : b.isUnknown = false)
    (ha' : a.isUnion = false) (hb' : b.isUnion = false) :
    eqF (n + 1) a b = some .nil := by
  cases a <;> cases b <;>
    first
      | rfl
      | simp_all [Value.kindIdx, Value.isUnknown, Value.isUnion]

/-- C10: `op::eq` on two runtime values of different kinds (neither the
typecheck-only `Unknown` nor a `Union`) returns `Nil`, never `Bool(false)`;
consequently the `Equal` op (the `two_op!` wrapper) pushes `Nil` and fails
the run with a `RuntimeTypeError` carrying the two operands. -/
theorem C10_eq_cross_kind_runtime_type_error (a b : Value)
    (hk : a.kindIdx ≠ b.kindIdx)
    (ha : a.isUnknown = false) (hb : b.isUnknown = false)
    (ha' : a.isUnion = false) (hb' : b.isUnion = false) :
    eqF 1 a b = some .nil ∧
    (∀ (ext : List ExternFn) (fl : Nat) (st : VMState) (rest : List Value),
      st.stack = rest ++ [a, b] → st.frames ≠ [] →
      evalOp ext (fl + 1) st .equal
        = .err (.runtimeTypeError .equal [a, b]) { st with stack := rest ++ [.nil] }) := by
  refine ⟨eqF_cross_kind_nil 0 a b hk ha hb ha' hb', ?_⟩
  intro ext fl st rest hst hfr
  have hs : st.stack = (rest ++ [a]) ++ [b] := by simpa [List.append_assoc] using hst
  have he : eqF (fl + 1) a b = some .nil := eqF_cross_kind_nil fl a b hk ha hb ha' hb'
  simp only [evalOp, twoOpStep, hs, popTop_append, he]
  simp [Value.isNil, mkErr, isEmpty_false_of_ne_nil hfr]

/-- C10 (witness): the theorem at the pair `Int 1` / `String ""`. -/
theorem C10_eq_cross_kind_witness :
    eqF 1 (.int 1) (.string []) = some .nil ∧
    evalOp [] 1 (mkState [.int 1, .string []]) .equal
      = .err (.runtimeTypeError .equal [.int 1, .string []]) (mkState [.nil]) := by
  have h := C10_eq_cross_kind_runtime_type_error (.int 1) (.string [])
    (by simp [Value.kindIdx]) rfl rfl rfl rfl
  exact ⟨h.1, h.2 [] 0 (mkState [.int 1, .string []]) [] rfl (by simp [mkState])⟩

/-! ## C6 counterexample -/

/-- C6 (counterexample): `define_variable` compares only scope-depth
numbers.  Here `x` lives in the enclosing function's frame (an outer scope),
so the claim says the declaration succeeds and shadows it; but because that
variable's recorded depth (1) equals the inner frame's current depth (1) the
compiler records "Multiple definitions" and rejects the declaration. -/
theorem C6_outer_function_shadowing_counterexample :
    (defineVariable "x" .unknown c6State).1 = .error () ∧
    (defineVariable "x" .unknown c6State).2.errors
      = [.syntaxError "Multiple definitions in this block."] ∧
    c6State.frames.getLast?.map CFrame.scope = some 1 ∧
    (c6State.frames.getLast?.map (fun f => f.stack.length)) = some 0 :=
  ⟨rfl, rfl, rfl, rfl⟩

end Sylt
